import Mathlib

/-!
# Verification of the copilot-more core against its specification

Shallow embedding of the repository's core components:

* `copilot_more/rate_limiter.py` — the `RateLimiter` class (sliding-window
  request limits, token limits with proportional delay, carry-over).
* `copilot_more/token_counter.py` — the `TokenUsage` store (record / query).
* `copilot_more/server.py` — `preprocess_request_body`,
  `parse_accumulated_sse_data`, `extract_usage_from_response`,
  `process_usage_and_show_statistics`.
* `copilot_more/access_token.py` — the refresh-credential pool and the
  per-index session-token cache.

Python `dict`s are modelled as association lists (insertion at the tail,
update in place, exactly like CPython's insertion-ordered dicts).
`datetime` values and second-valued delays are modelled as rationals
(seconds); `timedelta(minutes=w)` becomes `w * 60`.  A Python `Optional[int]`
field tested with `if not x:` is truthy exactly when it is `some n` with
`n ≠ 0` (`optTruthy`).
-/

namespace CopilotMore

/-- Lookup in an association list, mirroring Python `d[k]` / `k in d`. -/
def alookup {α β : Type} [DecidableEq α] (l : List (α × β)) (k : α) : Option β :=
  match l with
  | [] => none
  | (k', v) :: r => if k' = k then some v else alookup r k

/-- `d[k] = v` on a Python dict: update in place if the key exists,
append at the tail otherwise. -/
def aset {α β : Type} [DecidableEq α] (l : List (α × β)) (k : α) (v : β) :
    List (α × β) :=
  match l with
  | [] => [(k, v)]
  | (k', v') :: r => if k' = k then (k', v) :: r else (k', v') :: aset r k v

/-- `if k not in d: d[k] = dflt` on a Python dict. -/
def ensureKey {α β : Type} [DecidableEq α] (l : List (α × β)) (k : α) (dflt : β) :
    List (α × β) :=
  match alookup l k with
  | some _ => l
  | none => aset l k dflt

/-- `del d[k]` on a Python dict. -/
def adel {α β : Type} [DecidableEq α] (l : List (α × β)) (k : α) : List (α × β) :=
  match l with
  | [] => []
  | (k', v') :: r => if k' = k then r else (k', v') :: adel r k

/-- Python truthiness of an `Optional[int]` rule field (`if not rule.requests`). -/
def optTruthy : Option ℕ → Bool
  | none => false
  | some n => decide (n ≠ 0)

/-! ## `rate_limit_types.py` -/

/-- `RateLimitBehavior` from `rate_limit_types.py`. -/
inductive RateLimitBehavior
  | ERROR
  | DELAY
deriving DecidableEq, Repr

/-- `MAX_DELAY_SECONDS` from `rate_limit_types.py`. -/
def MAX_DELAY_SECONDS : ℚ := 60

/-- `RateLimitRule` from `rate_limit_types.py`. -/
structure RateLimitRule where
  window_minutes : ℕ
  input_tokens : Option ℕ := none
  output_tokens : Option ℕ := none
  total_tokens : Option ℕ := none
  requests : Option ℕ := none
  behavior : RateLimitBehavior := .ERROR
deriving DecidableEq, Repr

/-! ## `token_counter.py` — the usage store

`TokenUsage` keeps timestamped records; `query_usage` sums the records whose
index lies in `[start_time, end_time]` (both ends inclusive, matching the
pandas mask `(index >= start) & (index <= end)`) for the given model. -/

/-- One row of the `TokenUsage` store: `record_usage` stores
`total_tokens = input + output`. -/
structure UsageRecord where
  ts : ℚ
  model : String
  input_tokens : ℕ
  output_tokens : ℕ
  total_tokens : ℕ
deriving DecidableEq, Repr

/-- The result dict of `TokenUsage.query_usage` (the `record_count` key is
never read by the limiter and is omitted). -/
structure UsageTotals where
  total_input_tokens : ℕ
  total_output_tokens : ℕ
  total_tokens : ℕ
deriving DecidableEq, Repr

/-- `TokenUsage.record_usage`: append a row with
`total_tokens = input_tokens + output_tokens` at the current time. -/
def record_usage (store : List UsageRecord) (model : String)
    (input_tokens output_tokens : ℕ) (now : ℚ) : List UsageRecord :=
  store ++ [{ ts := now, model := model, input_tokens := input_tokens,
              output_tokens := output_tokens,
              total_tokens := input_tokens + output_tokens }]

/-- `TokenUsage.query_usage`: sum the rows with
`start_time ≤ ts ≤ end_time` and matching model. -/
def query_usage (store : List UsageRecord) (start_time end_time : ℚ)
    (model : String) : UsageTotals :=
  let recs := store.filter (fun r =>
    decide (start_time ≤ r.ts) && decide (r.ts ≤ end_time) &&
    decide (r.model = model))
  { total_input_tokens := (recs.map UsageRecord.input_tokens).sum
    total_output_tokens := (recs.map UsageRecord.output_tokens).sum
    total_tokens := (recs.map UsageRecord.total_tokens).sum }

/-! ## `rate_limiter.py` — state

`RateLimiter.request_counters : Dict[str, Dict[int, Dict[datetime, int]]]`,
`rules : Dict[str, list[RateLimitRule]]`,
`next_allowed_request : Dict[str, datetime]`. -/

/-- A `(timestamp → count)` counter for one `(model, window)` pair. -/
abbrev Counter := List (ℚ × ℕ)

/-- `request_counters[model]` : window-minutes → counter. -/
abbrev ModelCounters := List (ℕ × Counter)

/-- The whole `request_counters` dict. -/
abbrev Counters := List (String × ModelCounters)

/-- The mutable state of a `RateLimiter` (the `token_usage` collaborator is
passed to `check_token_limits` explicitly). -/
structure RLState where
  request_counters : Counters := []
  rules : List (String × List RateLimitRule) := []
  next_allowed_request : List (String × ℚ) := []
deriving DecidableEq, Repr

/-- `RateLimiter.add_rule`. -/
def add_rule (st : RLState) (model : String) (rule : RateLimitRule) : RLState :=
  { st with rules :=
      match alookup st.rules model with
      | none => aset st.rules model [rule]
      | some rs => aset st.rules model (rs ++ [rule]) }

/-- The counter of a `(model, window)` pair, defaulting to the empty dict
(the reading every limiter routine performs). -/
def cview (cs : Counters) (model : String) (w : ℕ) : Counter :=
  (alookup ((alookup cs model).getD []) w).getD []

/-! ## `rate_limiter.py` — operations -/

/-- `RateLimiter._check_token_limits`: compare the queried usage against the
rule's configured limits, in the order input / output / total. -/
def _check_token_limits (store : List UsageRecord) (model : String)
    (rule : RateLimitRule) (start_time end_time : ℚ) : Bool × UsageTotals :=
  let usage := query_usage store start_time end_time model
  if optTruthy rule.input_tokens &&
      decide (rule.input_tokens.getD 0 < usage.total_input_tokens) then
    (false, usage)
  else if optTruthy rule.output_tokens &&
      decide (rule.output_tokens.getD 0 < usage.total_output_tokens) then
    (false, usage)
  else if optTruthy rule.total_tokens &&
      decide (rule.total_tokens.getD 0 < usage.total_tokens) then
    (false, usage)
  else (true, usage)

/-- `RateLimiter._check_request_limits`: prune entries older than twice the
window, then count the requests inside the sliding window.  Returns the
updated `request_counters` together with `(is_within_limits, current_count)`. -/
def _check_request_limits (cs : Counters) (model : String)
    (rule : RateLimitRule) (current_time : ℚ) : Counters × Bool × Option ℕ :=
  if !optTruthy rule.requests then (cs, true, none)
  else
    let cs := ensureKey cs model []
    let mc := ensureKey ((alookup cs model).getD []) rule.window_minutes []
    let window_start := current_time - rule.window_minutes * 60
    let cleanup_time := current_time - 2 * rule.window_minutes * 60
    let cleaned := ((alookup mc rule.window_minutes).getD []).filter
      (fun p => decide (cleanup_time ≤ p.1))
    let mc := aset mc rule.window_minutes cleaned
    let cs := aset cs model mc
    let total_requests :=
      ((cleaned.filter (fun p => decide (window_start ≤ p.1))).map Prod.snd).sum
    (cs, decide (total_requests < rule.requests.getD 0), some total_requests)

/-- `RateLimiter._calculate_needed_delay`: sort the counter's keys inside the
window descendingly; if at least `requests` of them exist, the needed delay is
when the `requests`-th most recent leaves the window, clamped to `≥ 0`. -/
def _calculate_needed_delay (cs : Counters) (model : String)
    (rule : RateLimitRule) (current_time : ℚ) : ℚ :=
  if !optTruthy rule.requests then 0
  else
    let window_start := current_time - rule.window_minutes * 60
    let counter := cview cs model rule.window_minutes
    let sorted_times := List.insertionSort (· ≥ ·)
      ((counter.map Prod.fst).filter (fun ts => decide (window_start ≤ ts)))
    if sorted_times.length < rule.requests.getD 0 then 0
    else
      max 0 (sorted_times.getD (rule.requests.getD 0 - 1) 0 +
        rule.window_minutes * 60 - current_time)

/-- `RateLimiter.record_request`: bump the counter bucket of `current_time`
for every rule of the model that has a request limit. -/
def record_request (st : RLState) (model : String) (current_time : ℚ) :
    RLState :=
  let cs := ensureKey st.request_counters model []
  let cs := ((alookup st.rules model).getD []).foldl
    (fun cs rule =>
      if optTruthy rule.requests then
        let mc := ensureKey ((alookup cs model).getD []) rule.window_minutes []
        let counter := (alookup mc rule.window_minutes).getD []
        let counter := aset counter current_time
          ((alookup counter current_time).getD 0 + 1)
        aset cs model (aset mc rule.window_minutes counter)
      else cs)
    cs
  { st with request_counters := cs }

/-- The observable outcome of a limiter check: `raised` models a
`RateLimitError` escaping, `ok d` a normal return of `d`
(Python `None` ↦ `ok none`). -/
inductive CheckResult
  | raised
  | ok (delay : Option ℚ)
deriving DecidableEq, Repr

/-- Result of the per-rule loop inside `check_request_limit`: either a
`RateLimitError` propagates (with the mutations performed so far) or the loop
finishes with the accumulated `max_delay`. -/
inductive ReqLoopOut
  | raised (cs : Counters)
  | done (cs : Counters) (max_delay : ℚ)
deriving DecidableEq, Repr

/-- The `for rule in self.rules[model]` loop of `check_request_limit`. -/
def requestRulesLoop (model : String) (current_time : ℚ) :
    List RateLimitRule → Counters → ℚ → ReqLoopOut
  | [], cs, max_delay => .done cs max_delay
  | rule :: rest, cs, max_delay =>
    if !optTruthy rule.requests then
      requestRulesLoop model current_time rest cs max_delay
    else
      let r := _check_request_limits cs model rule current_time
      if r.2.1 then requestRulesLoop model current_time rest r.1 max_delay
      else if rule.behavior = .ERROR then .raised r.1
      else
        requestRulesLoop model current_time rest r.1
          (max max_delay (_calculate_needed_delay r.1 model rule current_time))

/-- `RateLimiter.check_request_limit`.  No rules for the model ⇒ `None`.
An armed `next_allowed_request` in the future ⇒ return the carry-over delay
immediately.  Otherwise run the per-rule loop; a positive accumulated
`max_delay` is returned, zero becomes `None`. -/
def check_request_limit (st : RLState) (model : String) (current_time : ℚ) :
    RLState × CheckResult :=
  match alookup st.rules model with
  | none => (st, .ok none)
  | some rules =>
    let run : RLState × CheckResult :=
      match requestRulesLoop model current_time rules st.request_counters 0 with
      | .raised cs => ({ st with request_counters := cs }, .raised)
      | .done cs max_delay =>
        ({ st with request_counters := cs },
          .ok (if 0 < max_delay then some max_delay else none))
    match alookup st.next_allowed_request model with
    | some na =>
      if current_time < na then
        (st, .ok (some (max 0 (na - current_time))))
      else run
    | none => run

/-- Result of the per-rule loop inside `check_token_limits`. -/
inductive TokLoopOut
  | raised (next_allowed : List (String × ℚ))
  | done (next_allowed : List (String × ℚ)) (max_delay : ℚ)
deriving DecidableEq, Repr

/-- The usage ratio picked by `check_token_limits` for a violated DELAY rule:
total first when the rule configures a total limit and the queried total is
positive, else input, else output, else `1.0`.  (The surrounding Python
`usage and …` is always truthy: `usage` is a non-empty dict.) -/
def usageRatio (rule : RateLimitRule) (usage : UsageTotals) : ℚ :=
  if optTruthy rule.total_tokens && decide (0 < usage.total_tokens) then
    (usage.total_tokens : ℚ) / (rule.total_tokens.getD 0 : ℕ)
  else if optTruthy rule.input_tokens && decide (0 < usage.total_input_tokens) then
    (usage.total_input_tokens : ℚ) / (rule.input_tokens.getD 0 : ℕ)
  else if optTruthy rule.output_tokens && decide (0 < usage.total_output_tokens) then
    (usage.total_output_tokens : ℚ) / (rule.output_tokens.getD 0 : ℕ)
  else 1

/-- The `for rule in self.rules[model]` loop of `check_token_limits`. -/
def tokenRulesLoop (store : List UsageRecord) (model : String)
    (current_time : ℚ) :
    List RateLimitRule → List (String × ℚ) → ℚ → TokLoopOut
  | [], na, max_delay => .done na max_delay
  | rule :: rest, na, max_delay =>
    let window_start := current_time - rule.window_minutes * 60
    let r := _check_token_limits store model rule window_start current_time
    if r.1 then tokenRulesLoop store model current_time rest na max_delay
    else if rule.behavior = .ERROR then .raised na
    else
      let ratio := min 2 (usageRatio rule r.2)
      let delay := min (rule.window_minutes * 60 * (ratio - 1)) MAX_DELAY_SECONDS
      let next_allowed := current_time + delay
      let na' :=
        match alookup na model with
        | some existing => aset na model (max existing next_allowed)
        | none => aset na model next_allowed
      tokenRulesLoop store model current_time rest na' (max max_delay delay)

/-- `RateLimiter.check_token_limits` (the `token_usage` collaborator is the
`store` argument). -/
def check_token_limits (st : RLState) (model : String) (current_time : ℚ)
    (store : List UsageRecord) : RLState × CheckResult :=
  match alookup st.rules model with
  | none => (st, .ok none)
  | some rules =>
    match tokenRulesLoop store model current_time rules
        st.next_allowed_request 0 with
    | .raised na => ({ st with next_allowed_request := na }, .raised)
    | .done na max_delay =>
      ({ st with next_allowed_request := na },
        .ok (if 0 < max_delay then some max_delay else none))

/-! ## Association-list laws -/

theorem alookup_aset {α β : Type} [DecidableEq α] (l : List (α × β))
    (k k' : α) (v : β) :
    alookup (aset l k v) k' = if k = k' then some v else alookup l k' := by
  induction l with
  | nil => by_cases h : k = k' <;> simp [aset, alookup, h]
  | cons hd tl ih =>
    obtain ⟨a, b⟩ := hd
    by_cases h1 : a = k <;> by_cases h2 : k = k' <;>
      simp_all [aset, alookup]

theorem alookup_ensureKey {α β : Type} [DecidableEq α] (l : List (α × β))
    (k k' : α) (d : β) :
    alookup (ensureKey l k d) k' =
      if k = k' then some ((alookup l k).getD d) else alookup l k' := by
  unfold ensureKey
  cases h : alookup l k with
  | some v => by_cases h2 : k = k' <;> simp_all
  | none => rw [alookup_aset]; by_cases h2 : k = k' <;> simp_all

/-! ## Counter-observation laws -/

/-- Sum of the request counts recorded inside the sliding window of width
`w` minutes ending at `now` (the quantity `_check_request_limits` compares
against `rule.requests`). -/
def windowSum (cs : Counters) (model : String) (w : ℕ) (now : ℚ) : ℕ :=
  (((cview cs model w).filter (fun p => decide (now - w * 60 ≤ p.1))).map
    Prod.snd).sum

/-- The distinct recorded timestamps (counter keys) inside the sliding window
of width `w` minutes ending at `now`. -/
def windowKeys (cs : Counters) (model : String) (w : ℕ) (now : ℚ) : List ℚ :=
  ((cview cs model w).map Prod.fst).filter (fun ts => decide (now - w * 60 ≤ ts))

theorem filter_cutoff_absorb (c : Counter) (a b : ℚ) (hab : a ≤ b) :
    (c.filter (fun p => decide (a ≤ p.1))).filter
        (fun p => decide (b ≤ p.1)) =
      c.filter (fun p => decide (b ≤ p.1)) := by
  induction c with
  | nil => rfl
  | cons hd tl ih =>
    by_cases hb : b ≤ hd.1
    · have ha : a ≤ hd.1 := le_trans hab hb
      simp [List.filter_cons, ha, hb, ih]
    · by_cases ha : a ≤ hd.1 <;> simp [List.filter_cons, ha, hb, ih]

theorem map_fst_filter_cutoff (c : Counter) (a : ℚ) :
    (c.filter (fun p => decide (a ≤ p.1))).map Prod.fst =
      (c.map Prod.fst).filter (fun ts => decide (a ≤ ts)) := by
  induction c with
  | nil => rfl
  | cons hd tl ih =>
    by_cases ha : a ≤ hd.1 <;> simp [List.filter_cons, ha, ih]

/-- Equality of the windowed contents of every counter at time `now` — the
part of `request_counters` that the per-rule checks can observe. -/
def WViewEq (now : ℚ) (cs cs' : Counters) : Prop :=
  ∀ m w, (cview cs m w).filter (fun p => decide (now - w * 60 ≤ p.1)) =
    (cview cs' m w).filter (fun p => decide (now - w * 60 ≤ p.1))

theorem WViewEq.refl (now : ℚ) (cs : Counters) : WViewEq now cs cs :=
  fun _ _ => rfl

theorem WViewEq.windowSum_eq {now : ℚ} {cs cs' : Counters}
    (h : WViewEq now cs cs') (m : String) (w : ℕ) :
    windowSum cs m w now = windowSum cs' m w now := by
  unfold windowSum; rw [h]

theorem WViewEq.windowKeys_eq {now : ℚ} {cs cs' : Counters}
    (h : WViewEq now cs cs') (m : String) (w : ℕ) :
    windowKeys cs m w now = windowKeys cs' m w now := by
  unfold windowKeys
  rw [← map_fst_filter_cutoff, ← map_fst_filter_cutoff, h]

/-! ## Effect of `_check_request_limits` on the state -/

theorem _check_request_limits_state (cs : Counters) (model : String)
    (rule : RateLimitRule) (now : ℚ) (h : optTruthy rule.requests = true)
    (m : String) (w : ℕ) :
    cview (_check_request_limits cs model rule now).1 m w =
      if model = m ∧ rule.window_minutes = w then
        (cview cs model rule.window_minutes).filter
          (fun p => decide (now - 2 * rule.window_minutes * 60 ≤ p.1))
      else cview cs m w := by
  unfold _check_request_limits
  simp only [h, Bool.not_true, Bool.false_eq_true, if_false, cview,
    alookup_aset, alookup_ensureKey]
  by_cases h1 : model = m <;> by_cases h2 : rule.window_minutes = w <;>
    simp [h1, h2, cview, alookup_aset, alookup_ensureKey]

theorem _check_request_limits_within (cs : Counters) (model : String)
    (rule : RateLimitRule) (now : ℚ) (h : optTruthy rule.requests = true) :
    (_check_request_limits cs model rule now).2.1 =
      decide (windowSum cs model rule.window_minutes now <
        rule.requests.getD 0) := by
  have habs := filter_cutoff_absorb (cview cs model rule.window_minutes)
    (now - 2 * rule.window_minutes * 60) (now - rule.window_minutes * 60)
    (by
      have : (0 : ℚ) ≤ (rule.window_minutes : ℚ) * 60 := by positivity
      linarith)
  unfold _check_request_limits
  simp only [h, Bool.not_true, Bool.false_eq_true, if_false, windowSum, cview,
    alookup_ensureKey, eq_self_iff_true, if_true, Option.getD_some]
  simp only [cview] at habs
  rw [habs]

theorem _check_request_limits_wview (cs : Counters) (model : String)
    (rule : RateLimitRule) (now : ℚ) (h : optTruthy rule.requests = true) :
    WViewEq now cs (_check_request_limits cs model rule now).1 := by
  intro m w
  rw [_check_request_limits_state cs model rule now h m w]
  by_cases hmw : model = m ∧ rule.window_minutes = w
  · obtain ⟨hm, hw⟩ := hmw
    subst hm; subst hw
    rw [if_pos ⟨rfl, rfl⟩,
      filter_cutoff_absorb _ _ _
        (by
          have : (0 : ℚ) ≤ (rule.window_minutes : ℚ) * 60 := by positivity
          linarith)]
  · rw [if_neg hmw]

/-- `_calculate_needed_delay` reads only the in-window counter keys. -/
theorem _calculate_needed_delay_congr (cs cs' : Counters) (model : String)
    (rule : RateLimitRule) (now : ℚ)
    (h : windowKeys cs model rule.window_minutes now =
      windowKeys cs' model rule.window_minutes now) :
    _calculate_needed_delay cs model rule now =
      _calculate_needed_delay cs' model rule now := by
  unfold windowKeys at h
  simp only [_calculate_needed_delay]
  rw [h]

theorem WViewEq.trans {now : ℚ} {a b c : Counters} (h1 : WViewEq now a b)
    (h2 : WViewEq now b c) : WViewEq now a c :=
  fun m w => (h1 m w).trans (h2 m w)

/-! ## Declarative view of the request-limit check -/

/-- A request rule is violated at `now`: it has a request limit and the
in-window count (with multiplicity) has reached it. -/
def violatesRequestRule (cs : Counters) (model : String) (now : ℚ)
    (r : RateLimitRule) : Bool :=
  optTruthy r.requests &&
    decide (r.requests.getD 0 ≤ windowSum cs model r.window_minutes now)

/-- The maximum of the needed delays of all violated DELAY rules, evaluated
against a fixed counters snapshot, starting from `acc`. -/
def requestDelayMax (cs : Counters) (model : String) (now : ℚ)
    (rules : List RateLimitRule) (acc : ℚ) : ℚ :=
  rules.foldl
    (fun acc r =>
      if violatesRequestRule cs model now r && decide (r.behavior = .DELAY) then
        max acc (_calculate_needed_delay cs model r now)
      else acc)
    acc

/-- The carry-over (`next_allowed_request`) short-circuit of
`check_request_limit` fires. -/
def carryBlocked (st : RLState) (model : String) (now : ℚ) : Bool :=
  match alookup st.next_allowed_request model with
  | some na => decide (now < na)
  | none => false

theorem requestRulesLoop_spec (model : String) (now : ℚ) (cs0 : Counters) :
    ∀ (rules : List RateLimitRule) (cs : Counters) (acc : ℚ),
      WViewEq now cs0 cs →
      (match requestRulesLoop model now rules cs acc with
       | .raised _ =>
           ∃ r ∈ rules, violatesRequestRule cs0 model now r = true ∧
             r.behavior = .ERROR
       | .done cs' acc' =>
           (∀ r ∈ rules, ¬(violatesRequestRule cs0 model now r = true ∧
             r.behavior = .ERROR)) ∧
           acc' = requestDelayMax cs0 model now rules acc ∧
           WViewEq now cs0 cs') := by
  intro rules
  induction rules with
  | nil =>
    intro cs acc h
    simpa [requestRulesLoop, requestDelayMax] using h
  | cons r rest ih =>
    intro cs acc h
    by_cases ht : optTruthy r.requests
    · have hwithin := _check_request_limits_within cs model r now ht
      have hwv : WViewEq now cs0 (_check_request_limits cs model r now).1 :=
        h.trans (_check_request_limits_wview cs model r now ht)
      by_cases hw : windowSum cs0 model r.window_minutes now <
          r.requests.getD 0
      · -- within limits: the rule is skipped, state pruned
        have hviol : violatesRequestRule cs0 model now r = false := by
          simp [violatesRequestRule, not_le.mpr hw]
        have hb : (_check_request_limits cs model r now).2.1 = true := by
          rw [hwithin, ← h.windowSum_eq model r.window_minutes]
          simpa using hw
        have hloop : requestRulesLoop model now (r :: rest) cs acc =
            requestRulesLoop model now rest
              (_check_request_limits cs model r now).1 acc := by
          simp [requestRulesLoop, ht, hb]
        rw [hloop]
        have := ih (_check_request_limits cs model r now).1 acc hwv
        cases hres : requestRulesLoop model now rest
            (_check_request_limits cs model r now).1 acc with
        | raised cs' =>
          rw [hres] at this
          exact ⟨this.choose, .tail _ this.choose_spec.1, this.choose_spec.2⟩
        | done cs' acc' =>
          rw [hres] at this
          refine ⟨?_, ?_, this.2.2⟩
          · intro r' hr'
            rcases List.mem_cons.mp hr' with h' | h'
            · subst h'; simp [hviol]
            · exact this.1 r' h'
          · rw [this.2.1]
            simp [requestDelayMax, hviol]
      · -- the rule is violated
        have hviol : violatesRequestRule cs0 model now r = true := by
          simp [violatesRequestRule, ht, not_lt.mp hw]
        have hb : (_check_request_limits cs model r now).2.1 = false := by
          rw [hwithin, ← h.windowSum_eq model r.window_minutes]
          simpa using hw
        cases hbeh : r.behavior with
        | ERROR =>
          have hloop : requestRulesLoop model now (r :: rest) cs acc =
              .raised (_check_request_limits cs model r now).1 := by
            simp [requestRulesLoop, ht, hb, hbeh]
          rw [hloop]
          exact ⟨r, List.mem_cons_self r rest, hviol, hbeh⟩
        | DELAY =>
          have hcnd : _calculate_needed_delay
              (_check_request_limits cs model r now).1 model r now =
              _calculate_needed_delay cs0 model r now :=
            _calculate_needed_delay_congr _ _ model r now
              (hwv.windowKeys_eq model r.window_minutes).symm
          have hloop : requestRulesLoop model now (r :: rest) cs acc =
              requestRulesLoop model now rest
                (_check_request_limits cs model r now).1
                (max acc (_calculate_needed_delay cs0 model r now)) := by
            simp [requestRulesLoop, ht, hb, hbeh, hcnd]
          rw [hloop]
          have := ih (_check_request_limits cs model r now).1
            (max acc (_calculate_needed_delay cs0 model r now)) hwv
          cases hres : requestRulesLoop model now rest
              (_check_request_limits cs model r now).1
              (max acc (_calculate_needed_delay cs0 model r now)) with
          | raised cs' =>
            rw [hres] at this
            exact ⟨this.choose, .tail _ this.choose_spec.1, this.choose_spec.2⟩
          | done cs' acc' =>
            rw [hres] at this
            refine ⟨?_, ?_, this.2.2⟩
            · intro r' hr'
              rcases List.mem_cons.mp hr' with h' | h'
              · subst h'; simp [hbeh]
              · exact this.1 r' h'
            · rw [this.2.1]
              simp [requestDelayMax, hviol, hbeh]
    · -- rule without a request limit: skipped entirely
      have hviol : violatesRequestRule cs0 model now r = false := by
        simp [violatesRequestRule, ht]
      have hloop : requestRulesLoop model now (r :: rest) cs acc =
          requestRulesLoop model now rest cs acc := by
        simp [requestRulesLoop, ht]
      rw [hloop]
      have := ih cs acc h
      cases hres : requestRulesLoop model now rest cs acc with
      | raised cs' =>
        rw [hres] at this
        exact ⟨this.choose, .tail _ this.choose_spec.1, this.choose_spec.2⟩
      | done cs' acc' =>
        rw [hres] at this
        refine ⟨?_, ?_, this.2.2⟩
        · intro r' hr'
          rcases List.mem_cons.mp hr' with h' | h'
          · subst h'; simp [hviol]
          · exact this.1 r' h'
        · rw [this.2.1]
          simp [requestDelayMax, hviol]

/-- Counters of a `(m, w)` pair no processed rule writes to are untouched by
the per-rule loop (in both the normal and the raising outcome). -/
theorem requestRulesLoop_frame (model : String) (now : ℚ) :
    ∀ (rules : List RateLimitRule) (cs : Counters) (acc : ℚ) (m : String)
      (w : ℕ),
      ¬(model = m ∧ ∃ r ∈ rules, optTruthy r.requests = true ∧
        r.window_minutes = w) →
      (match requestRulesLoop model now rules cs acc with
       | .raised cs' => cview cs' m w = cview cs m w
       | .done cs' _ => cview cs' m w = cview cs m w) := by
  intro rules
  induction rules with
  | nil =>
    intro cs acc m w _
    simp [requestRulesLoop]
  | cons r rest ih =>
    intro cs acc m w hno
    have hnr : ¬(model = m ∧ ∃ r' ∈ rest, optTruthy r'.requests = true ∧
        r'.window_minutes = w) := by
      rintro ⟨hm, r', hr', hp⟩
      exact hno ⟨hm, r', .tail _ hr', hp⟩
    by_cases ht : optTruthy r.requests
    · have hstep : cview (_check_request_limits cs model r now).1 m w =
          cview cs m w := by
        rw [_check_request_limits_state cs model r now ht m w, if_neg]
        rintro ⟨hm, hw⟩
        exact hno ⟨hm, r, List.mem_cons_self r rest, ht, hw⟩
      by_cases hb : (_check_request_limits cs model r now).2.1
      · have hloop : requestRulesLoop model now (r :: rest) cs acc =
            requestRulesLoop model now rest
              (_check_request_limits cs model r now).1 acc := by
          simp [requestRulesLoop, ht, hb]
        rw [hloop]
        have := ih (_check_request_limits cs model r now).1 acc m w hnr
        cases hres : requestRulesLoop model now rest
            (_check_request_limits cs model r now).1 acc <;>
          rw [hres] at this <;> simp only [] <;> rw [this, hstep]
      · cases hbeh : r.behavior with
        | ERROR =>
          have hloop : requestRulesLoop model now (r :: rest) cs acc =
              .raised (_check_request_limits cs model r now).1 := by
            simp [requestRulesLoop, ht, hb, hbeh]
          rw [hloop]
          exact hstep
        | DELAY =>
          have hloop : requestRulesLoop model now (r :: rest) cs acc =
              requestRulesLoop model now rest
                (_check_request_limits cs model r now).1
                (max acc (_calculate_needed_delay
                  (_check_request_limits cs model r now).1 model r now)) := by
            simp [requestRulesLoop, ht, hb, hbeh]
          rw [hloop]
          have := ih (_check_request_limits cs model r now).1
            (max acc (_calculate_needed_delay
              (_check_request_limits cs model r now).1 model r now)) m w hnr
          cases hres : requestRulesLoop model now rest
              (_check_request_limits cs model r now).1
              (max acc (_calculate_needed_delay
                (_check_request_limits cs model r now).1 model r now)) <;>
            rw [hres] at this <;> simp only [] <;> rw [this, hstep]
    · have hloop : requestRulesLoop model now (r :: rest) cs acc =
          requestRulesLoop model now rest cs acc := by
        simp [requestRulesLoop, ht]
      rw [hloop]
      have := ih cs acc m w hnr
      cases hres : requestRulesLoop model now rest cs acc <;>
        rw [hres] at this <;> simp only [] <;> rw [this]

/-- When some processed rule does write to the `(model, w)` counter and the
loop completes, that counter ends up pruned at the `2 × w` cutoff. -/
theorem requestRulesLoop_prune (model : String) (now : ℚ) :
    ∀ (rules : List RateLimitRule) (cs : Counters) (acc : ℚ) (w : ℕ),
      (∃ r ∈ rules, optTruthy r.requests = true ∧ r.window_minutes = w) →
      (match requestRulesLoop model now rules cs acc with
       | .raised _ => True
       | .done cs' _ =>
           cview cs' model w =
             (cview cs model w).filter
               (fun p => decide (now - 2 * w * 60 ≤ p.1))) := by
  intro rules
  induction rules with
  | nil => rintro cs acc w ⟨r, hr, _⟩; cases hr
  | cons r rest ih =>
    intro cs acc w hex
    by_cases ht : optTruthy r.requests
    · -- helper: after this rule's own pruning step
      have hstep := _check_request_limits_state cs model r now ht model w
      have hcont : ∀ acc',
          (match requestRulesLoop model now rest
              (_check_request_limits cs model r now).1 acc' with
           | .raised _ => True
           | .done cs' _ =>
               cview cs' model w =
                 (cview cs model w).filter
                   (fun p => decide (now - 2 * w * 60 ≤ p.1))) := by
        intro acc'
        by_cases hrest : ∃ r' ∈ rest, optTruthy r'.requests = true ∧
            r'.window_minutes = w
        · have := ih (_check_request_limits cs model r now).1 acc' w hrest
          cases hres : requestRulesLoop model now rest
              (_check_request_limits cs model r now).1 acc' with
          | raised cs' => trivial
          | done cs' acc'' =>
            rw [hres] at this
            simp only [] at this ⊢
            rw [this]
            by_cases hww : r.window_minutes = w
            · rw [hstep, if_pos ⟨rfl, hww⟩, hww,
                filter_cutoff_absorb _ _ _ le_rfl]
            · rw [hstep, if_neg (by rintro ⟨_, h⟩; exact hww h)]
        · -- the head rule must be the matching one
          rcases hex with ⟨r', hr', htr', hwr'⟩
          have hrw : r.window_minutes = w := by
            rcases List.mem_cons.mp hr' with h' | h'
            · subst h'; exact hwr'
            · exact absurd ⟨r', h', htr', hwr'⟩ hrest
          have hframe := requestRulesLoop_frame model now rest
            (_check_request_limits cs model r now).1 acc' model w
            (by rintro ⟨_, hx⟩; exact hrest hx)
          cases hres : requestRulesLoop model now rest
              (_check_request_limits cs model r now).1 acc' with
          | raised cs' => trivial
          | done cs' acc'' =>
            rw [hres] at hframe
            simp only [] at hframe ⊢
            rw [hframe, hstep, if_pos ⟨rfl, hrw⟩, hrw]
      by_cases hb : (_check_request_limits cs model r now).2.1
      · have hloop : requestRulesLoop model now (r :: rest) cs acc =
            requestRulesLoop model now rest
              (_check_request_limits cs model r now).1 acc := by
          simp [requestRulesLoop, ht, hb]
        rw [hloop]; exact hcont acc
      · cases hbeh : r.behavior with
        | ERROR =>
          have hloop : requestRulesLoop model now (r :: rest) cs acc =
              .raised (_check_request_limits cs model r now).1 := by
            simp [requestRulesLoop, ht, hb, hbeh]
          rw [hloop]; trivial
        | DELAY =>
          have hloop : requestRulesLoop model now (r :: rest) cs acc =
              requestRulesLoop model now rest
                (_check_request_limits cs model r now).1
                (max acc (_calculate_needed_delay
                  (_check_request_limits cs model r now).1 model r now)) := by
            simp [requestRulesLoop, ht, hb, hbeh]
          rw [hloop]; exact hcont _
    · -- head rule untouched: the witness is in the tail
      have hrest : ∃ r' ∈ rest, optTruthy r'.requests = true ∧
          r'.window_minutes = w := by
        rcases hex with ⟨r', hr', htr', hwr'⟩
        rcases List.mem_cons.mp hr' with h' | h'
        · subst h'; exact absurd htr' ht
        · exact ⟨r', h', htr', hwr'⟩
      have hloop : requestRulesLoop model now (r :: rest) cs acc =
          requestRulesLoop model now rest cs acc := by
        simp [requestRulesLoop, ht]
      rw [hloop]
      exact ih cs acc w hrest

/-! ## Claim C3 — aggregation in `check_request_limit` -/

/-- C3 (amended): when `next_allowed_at` is armed in the future,
`check_request_limit` returns the carry-over delay `next_allowed_at − now`
immediately, without evaluating any per-rule logic.  Otherwise it raises
`RateLimitError` iff some request rule with behavior ERROR is violated at
`now`, and, when no such rule exists, returns the maximum of the violated
DELAY rules' needed delays — `None` when that maximum is zero. -/
theorem C3_check_request_limit_aggregation (st : RLState) (model : String)
    (now : ℚ) (rules : List RateLimitRule)
    (hr : alookup st.rules model = some rules) :
    (∀ na, alookup st.next_allowed_request model = some na → now < na →
      check_request_limit st model now =
        (st, .ok (some (max 0 (na - now))))) ∧
    (carryBlocked st model now = false →
      (((check_request_limit st model now).2 = .raised) ↔
        ∃ r ∈ rules,
          violatesRequestRule st.request_counters model now r = true ∧
          r.behavior = .ERROR) ∧
      ((∀ r ∈ rules,
          ¬(violatesRequestRule st.request_counters model now r = true ∧
            r.behavior = .ERROR)) →
        (check_request_limit st model now).2 =
          .ok (if 0 < requestDelayMax st.request_counters model now rules 0
            then some (requestDelayMax st.request_counters model now rules 0)
            else none))) := by
  constructor
  · intro na hna hlt
    unfold check_request_limit
    rw [hr, hna]
    simp [hlt]
  · intro hcb
    have hspec := requestRulesLoop_spec model now st.request_counters rules
      st.request_counters 0 (WViewEq.refl now st.request_counters)
    have hrun :
        (check_request_limit st model now).2 =
          (match requestRulesLoop model now rules st.request_counters 0 with
           | .raised _ => CheckResult.raised
           | .done _ max_delay =>
               CheckResult.ok
                 (if 0 < max_delay then some max_delay else none)) := by
      unfold check_request_limit
      rw [hr]
      unfold carryBlocked at hcb
      cases hna : alookup st.next_allowed_request model with
      | none =>
        cases hres : requestRulesLoop model now rules st.request_counters 0 <;>
          simp [hres]
      | some na =>
        rw [hna] at hcb
        simp only [decide_eq_false_iff_not, not_lt] at hcb
        cases hres : requestRulesLoop model now rules st.request_counters 0 <;>
          simp [hres, not_lt.mpr hcb]
    cases hres : requestRulesLoop model now rules st.request_counters 0 with
    | raised cs' =>
      rw [hres] at hspec hrun
      constructor
      · rw [hrun]; simpa using hspec
      · intro hno
        exfalso
        obtain ⟨r, hrr, hv, hb⟩ := hspec
        exact (hno r hrr) ⟨hv, hb⟩
    | done cs' acc' =>
      rw [hres] at hspec hrun
      constructor
      · rw [hrun]
        simp only [reduceCtorEq, false_iff]
        rintro ⟨r, hrr, hv, hb⟩
        exact hspec.1 r hrr ⟨hv, hb⟩
      · intro _
        rw [hrun, hspec.2.1]

theorem delay_ne_error : RateLimitBehavior.DELAY ≠ RateLimitBehavior.ERROR := by
  decide

/-- The ERROR request rule of the C3 counterexample:
`(window=5, requests=1, ERROR)`. -/
def c3ErrRule : RateLimitRule :=
  { window_minutes := 5, requests := some 1, behavior := .ERROR }

/-- The DELAY token rule of the C3 counterexample:
`(window=1, total_tokens=1, DELAY)`. -/
def c3DelayRule : RateLimitRule :=
  { window_minutes := 1, total_tokens := some 1, behavior := .DELAY }

/-- Usage store of the C3 counterexample: 10 total tokens at `t = 995`. -/
def c3Store : List UsageRecord :=
  [{ ts := 995, model := "m", input_tokens := 5, output_tokens := 5,
     total_tokens := 10 }]

/-- The C3 counterexample state: both rules added, one request recorded at
`t = 1000`, and `check_token_limits` run at `t = 1000` — which arms
`next_allowed_request["m"] = 1060`. -/
def c3State : RLState :=
  (check_token_limits
    (record_request
      (add_rule (add_rule {} "m" c3ErrRule) "m" c3DelayRule) "m" 1000)
    "m" 1000 c3Store).1

/-- C3 counterexample: at `t = 1030` the ERROR rule `(window=5, requests=1)`
is violated (one request recorded at `t = 1000` is inside the window), yet
`check_request_limit` does not raise — the armed carry-over short-circuits
the per-rule logic and the call returns the carry-over delay `30` instead.
This refutes the claim that `check_request_limit` raises whenever an ERROR
request rule is violated. -/
theorem C3_counterexample :
    alookup c3State.rules "m" = some [c3ErrRule, c3DelayRule] ∧
    violatesRequestRule c3State.request_counters "m" 1030 c3ErrRule = true ∧
    c3ErrRule.behavior = .ERROR ∧
    (check_request_limit c3State "m" 1030).2 = .ok (some 30) := by
  have hst : c3State =
      { request_counters := [("m", [(5, [(1000, 1)])])],
        rules := [("m", [c3ErrRule, c3DelayRule])],
        next_allowed_request := [("m", 1060)] } := by
    norm_num [c3State, c3ErrRule, c3DelayRule, c3Store, add_rule,
      record_request, check_token_limits, tokenRulesLoop, _check_token_limits,
      query_usage, usageRatio, optTruthy, alookup, aset, ensureKey,
      MAX_DELAY_SECONDS, delay_ne_error]
  rw [hst]
  refine ⟨by norm_num [alookup], ?_, rfl, ?_⟩
  · norm_num [violatesRequestRule, c3ErrRule, windowSum, cview, alookup,
      optTruthy]
  · norm_num [check_request_limit, alookup, c3ErrRule, c3DelayRule]

/-- The DELAY request rule of the C3 witness: `(window=5, requests=1, DELAY)`. -/
def c3WRule : RateLimitRule :=
  { window_minutes := 5, requests := some 1, behavior := .DELAY }

/-- The C3 witness state: one DELAY rule, one request recorded at `t = 0`. -/
def c3WState : RLState :=
  record_request (add_rule {} "m" c3WRule) "m" 0

/-- Witness for the amended C3: in a state with the single violated DELAY
rule `(window=5, requests=1)` and one request at `t = 0`, the check at
`t = 60` returns the needed delay `240 = (0 + 300) − 60`. -/
theorem C3_check_request_limit_aggregation_witness :
    (check_request_limit c3WState "m" 60).2 = .ok (some 240) := by
  have hst : c3WState =
      { request_counters := [("m", [(5, [(0, 1)])])],
        rules := [("m", [c3WRule])],
        next_allowed_request := [] } := by
    norm_num [c3WState, add_rule, record_request, alookup, aset, ensureKey,
      optTruthy, c3WRule]
  have h := (C3_check_request_limit_aggregation c3WState "m" 60 [c3WRule]
      (by rw [hst]; norm_num [alookup])).2
    (by rw [hst]; norm_num [carryBlocked, alookup])
  have h2 := h.2 (by
    intro r hr
    rw [List.mem_singleton] at hr
    subst hr
    simp [c3WRule])
  rw [h2, hst]
  norm_num [requestDelayMax, violatesRequestRule, windowSum, cview, alookup,
    optTruthy, c3WRule, _calculate_needed_delay, List.insertionSort,
    List.orderedInsert]

/-! ## Claim C4 — the needed-delay computation for DELAY request rules -/

theorem _calculate_needed_delay_eq (cs : Counters) (model : String)
    (r : RateLimitRule) (now : ℚ) (ht : optTruthy r.requests = true) :
    _calculate_needed_delay cs model r now =
      if (List.insertionSort (· ≥ ·)
          (windowKeys cs model r.window_minutes now)).length <
          r.requests.getD 0 then 0
      else
        max 0 ((List.insertionSort (· ≥ ·)
            (windowKeys cs model r.window_minutes now)).getD
          (r.requests.getD 0 - 1) 0 + r.window_minutes * 60 - now) := by
  unfold _calculate_needed_delay windowKeys
  rw [if_neg (by simp [ht])]

/-- The needed delay as claim C4 states it: `T` is the descending-sorted
sequence of in-window timestamps *counted with multiplicity*, and the delay
is `(T[k−1] + window) − now` clamped to `≥ 0`. -/
def claimedNeededDelayC4 (cs : Counters) (model : String) (r : RateLimitRule)
    (now : ℚ) : ℚ :=
  let T := List.insertionSort (· ≥ ·)
    (((cview cs model r.window_minutes).filter
        (fun p => decide (now - r.window_minutes * 60 ≤ p.1))).flatMap
      (fun p => List.replicate p.2 p.1))
  max 0 (T.getD (r.requests.getD 0 - 1) 0 + r.window_minutes * 60 - now)

/-- The rule of the C4 counterexample: `(window=5, requests=2, DELAY)`. -/
def c4Rule : RateLimitRule :=
  { window_minutes := 5, requests := some 2, behavior := .DELAY }

/-- The C4 counterexample state: two requests recorded at the *same*
timestamp `t = 1000`, so the counter holds one key with count 2. -/
def c4State : RLState :=
  record_request (record_request (add_rule {} "m" c4Rule) "m" 1000) "m" 1000

/-- C4 counterexample: with two requests at the same instant the rule
`(window=5, requests=2, DELAY)` is violated at `t = 1010` (in-window count
with multiplicity is `2 ≥ 2`), and the claim's multiset reading of `T`
predicts the delay `(1000 + 300) − 1010 = 290`; but the code sorts the
*distinct* counter keys, finds only one, and returns no delay at all. -/
theorem C4_counterexample :
    violatesRequestRule c4State.request_counters "m" 1010 c4Rule = true ∧
    claimedNeededDelayC4 c4State.request_counters "m" c4Rule 1010 = 290 ∧
    (check_request_limit c4State "m" 1010).2 = .ok none := by
  have hst : c4State =
      { request_counters := [("m", [(5, [(1000, 2)])])],
        rules := [("m", [c4Rule])],
        next_allowed_request := [] } := by
    norm_num [c4State, c4Rule, add_rule, record_request, alookup, aset,
      ensureKey, optTruthy]
  rw [hst]
  refine ⟨?_, ?_, ?_⟩
  · norm_num [violatesRequestRule, c4Rule, windowSum, cview, alookup,
      optTruthy]
  · norm_num [claimedNeededDelayC4, c4Rule, cview, alookup,
      List.insertionSort, List.orderedInsert, List.replicate]
  · norm_num [check_request_limit, requestRulesLoop, _check_request_limits,
      _calculate_needed_delay, alookup, aset, ensureKey, optTruthy, cview,
      c4Rule, delay_ne_error, List.insertionSort, List.orderedInsert]

/-- C4 (amended): when a DELAY request rule with limit `k` is violated at
`now` and it is the model's only rule (no carry-over armed), the per-rule
delay is computed from `T`, the descending-sorted list of the *distinct*
in-window counter keys: it is `0` when fewer than `k` distinct keys exist,
else `max 0 (T[k−1] + window − now)`; `check_request_limit` returns it when
positive and `None` otherwise. -/
theorem C4_needed_delay (st : RLState) (model : String) (now : ℚ)
    (r : RateLimitRule) (k : ℕ) (T : List ℚ)
    (hr : alookup st.rules model = some [r])
    (hc : carryBlocked st model now = false)
    (hk : r.requests = some k) (hk0 : k ≠ 0)
    (hb : r.behavior = .DELAY)
    (hviol : k ≤ windowSum st.request_counters model r.window_minutes now)
    (hsort : T.Sorted (· ≥ ·))
    (hperm : T.Perm (windowKeys st.request_counters model r.window_minutes now)) :
    (check_request_limit st model now).2 =
      .ok (if 0 < (if T.length < k then (0 : ℚ)
            else max 0 (T.getD (k - 1) 0 + r.window_minutes * 60 - now)) then
        some (if T.length < k then (0 : ℚ)
            else max 0 (T.getD (k - 1) 0 + r.window_minutes * 60 - now))
      else none) := by
  have ht : optTruthy r.requests = true := by
    rw [hk]; simp [optTruthy, hk0]
  have hT : T = List.insertionSort (· ≥ ·)
      (windowKeys st.request_counters model r.window_minutes now) :=
    List.eq_of_perm_of_sorted
      (hperm.trans (List.perm_insertionSort _ _).symm) hsort
      (List.sorted_insertionSort _ _)
  have hviolB : violatesRequestRule st.request_counters model now r = true := by
    unfold violatesRequestRule
    rw [ht, hk]
    simp [hviol]
  have hd : _calculate_needed_delay st.request_counters model r now =
      (if T.length < k then (0 : ℚ)
       else max 0 (T.getD (k - 1) 0 + r.window_minutes * 60 - now)) := by
    rw [_calculate_needed_delay_eq st.request_counters model r now ht, ← hT,
      hk]
    rfl
  have hspec := requestRulesLoop_spec model now st.request_counters [r]
    st.request_counters 0 (WViewEq.refl now st.request_counters)
  have hrun :
      (check_request_limit st model now).2 =
        (match requestRulesLoop model now [r] st.request_counters 0 with
         | .raised _ => CheckResult.raised
         | .done _ max_delay =>
             CheckResult.ok
               (if 0 < max_delay then some max_delay else none)) := by
    unfold check_request_limit
    rw [hr]
    unfold carryBlocked at hc
    cases hna : alookup st.next_allowed_request model with
    | none =>
      cases hres : requestRulesLoop model now [r] st.request_counters 0 <;>
        simp [hres]
    | some na =>
      rw [hna] at hc
      simp only [decide_eq_false_iff_not, not_lt] at hc
      cases hres : requestRulesLoop model now [r] st.request_counters 0 <;>
        simp [hres, not_lt.mpr hc]
  cases hres : requestRulesLoop model now [r] st.request_counters 0 with
  | raised cs' =>
    rw [hres] at hspec
    obtain ⟨r', hr', _, herr⟩ := hspec
    rw [List.mem_singleton] at hr'
    subst hr'
    rw [hb] at herr
    exact absurd herr delay_ne_error
  | done cs' acc' =>
    rw [hres] at hspec hrun
    rw [hrun]
    have hacc : acc' = max 0 (_calculate_needed_delay st.request_counters
        model r now) := by
      rw [hspec.2.1]
      simp [requestDelayMax, hviolB, hb]
    rw [hacc, hd]
    by_cases hlen : T.length < k
    · simp [hlen]
    · rw [if_neg hlen, ← max_assoc, max_self]

/-- The rule of the C4 witness: `(window=5, requests=2, DELAY)`. -/
def c4WState : RLState :=
  record_request (record_request (add_rule {} "m" c4Rule) "m" 0) "m" 60

/-- Witness for the amended C4: two requests at `t = 0` and `t = 60`,
check at `t = 70` with `T = [60, 0]`: the rule is violated and the returned
delay is `max 0 (T[1] + 300 − 70) = 230`. -/
theorem C4_needed_delay_witness :
    (check_request_limit c4WState "m" 70).2 = .ok (some 230) := by
  have hst : c4WState =
      { request_counters := [("m", [(5, [(0, 1), (60, 1)])])],
        rules := [("m", [c4Rule])],
        next_allowed_request := [] } := by
    norm_num [c4WState, c4Rule, add_rule, record_request, alookup, aset,
      ensureKey, optTruthy]
  have h := C4_needed_delay c4WState "m" 70 c4Rule 2 [60, 0]
    (by rw [hst]; norm_num [alookup, c4Rule])
    (by rw [hst]; norm_num [carryBlocked, alookup])
    (by norm_num [c4Rule]) (by norm_num)
    (by norm_num [c4Rule])
    (by rw [hst]; norm_num [windowSum, cview, alookup, c4Rule])
    (by norm_num [List.sorted_cons])
    (by rw [hst]
        have hkeys : windowKeys
            ({ request_counters := [("m", [(5, [(0, 1), (60, 1)])])],
               rules := [("m", [c4Rule])],
               next_allowed_request := [] } : RLState).request_counters
            "m" c4Rule.window_minutes 70 = [0, 60] := by
          norm_num [windowKeys, cview, alookup, c4Rule]
        rw [hkeys]
        exact List.Perm.swap 0 60 [])
  rw [h]
  norm_num [c4Rule]

/-! ## Claim C5 — pruning of the request counters -/

/-- First C5 counterexample scenario: rules with windows 1 and 10 minutes. -/
def c5iRuleA : RateLimitRule :=
  { window_minutes := 1, requests := some 5, behavior := .DELAY }

/-- Second rule of the first C5 scenario: a 10-minute window. -/
def c5iRuleB : RateLimitRule :=
  { window_minutes := 10, requests := some 5, behavior := .DELAY }

/-- One request recorded at `t = 0` lands in both windows' counters. -/
def c5iState : RLState :=
  record_request (add_rule (add_rule {} "m" c5iRuleA) "m" c5iRuleB) "m" 0

/-- Second C5 scenario: a request rule and a token rule, both 1-minute. -/
def c5iiRuleReq : RateLimitRule :=
  { window_minutes := 1, requests := some 1, behavior := .DELAY }

/-- The token rule used to arm the carry-over in the second C5 scenario. -/
def c5iiRuleTok : RateLimitRule :=
  { window_minutes := 1, total_tokens := some 1, behavior := .DELAY }

/-- Usage store of the second C5 scenario: 10 total tokens at `t = 990`. -/
def c5iiStore : List UsageRecord :=
  [{ ts := 990, model := "m", input_tokens := 5, output_tokens := 5,
     total_tokens := 10 }]

/-- Second C5 scenario state: request recorded at `t = 0`, then
`check_token_limits` at `t = 1000` arms `next_allowed_request["m"] = 1060`. -/
def c5iiState : RLState :=
  (check_token_limits
    (record_request
      (add_rule (add_rule {} "m" c5iiRuleReq) "m" c5iiRuleTok) "m" 0)
    "m" 1000 c5iiStore).1

/-- Third C5 scenario: an ERROR rule processed first, a 10-minute rule after. -/
def c5iiiRuleA : RateLimitRule :=
  { window_minutes := 1, requests := some 1, behavior := .ERROR }

/-- Second rule of the third C5 scenario. -/
def c5iiiRuleB : RateLimitRule :=
  { window_minutes := 10, requests := some 5, behavior := .ERROR }

/-- Third C5 scenario state: requests recorded at `t = 0` and `t = 1250`. -/
def c5iiiState : RLState :=
  record_request
    (record_request (add_rule (add_rule {} "m" c5iiiRuleA) "m" c5iiiRuleB)
      "m" 0)
    "m" 1250

/-- C5 counterexample, refuting both conjuncts of the claim.
(i) At `t = 300` the check prunes the entry `t = 0` from the 1-minute
counter although that timestamp lies inside the *10-minute* rule's active
window `[300 − 600, 300]` — pruning does remove entries within the active
window of *a* rule of the model.
(ii) With the carry-over armed (`next_allowed = 1060`), the check at
`t = 1030` returns early: the 1-minute counter keeps its entry `t = 0`,
older than `now − 2×window = 910`.
(iii) When the first rule raises `RateLimitError` at `t = 1300`, the
10-minute counter keeps its entry `t = 0`, older than `now − 2×window = 100`. -/
theorem C5_counterexample :
    (c5iRuleB ∈ (alookup c5iState.rules "m").getD [] ∧
     (300 : ℚ) - c5iRuleB.window_minutes * 60 ≤ 0 ∧
     ((0 : ℚ), 1) ∈ cview c5iState.request_counters "m" 1 ∧
     ((0 : ℚ), 1) ∉
       cview (check_request_limit c5iState "m" 300).1.request_counters
         "m" 1) ∧
    (((0 : ℚ), 1) ∈
       cview (check_request_limit c5iiState "m" 1030).1.request_counters
         "m" 1 ∧
     (0 : ℚ) < 1030 - 2 * 1 * 60) ∧
    ((check_request_limit c5iiiState "m" 1300).2 = .raised ∧
     ((0 : ℚ), 1) ∈
       cview (check_request_limit c5iiiState "m" 1300).1.request_counters
         "m" 10 ∧
     (0 : ℚ) < 1300 - 2 * 10 * 60) := by
  have hsti : c5iState =
      { request_counters := [("m", [(1, [(0, 1)]), (10, [(0, 1)])])],
        rules := [("m", [c5iRuleA, c5iRuleB])],
        next_allowed_request := [] } := by
    norm_num [c5iState, c5iRuleA, c5iRuleB, add_rule, record_request, alookup,
      aset, ensureKey, optTruthy]
  have hstii : c5iiState =
      { request_counters := [("m", [(1, [(0, 1)])])],
        rules := [("m", [c5iiRuleReq, c5iiRuleTok])],
        next_allowed_request := [("m", 1060)] } := by
    norm_num [c5iiState, c5iiRuleReq, c5iiRuleTok, c5iiStore, add_rule,
      record_request, check_token_limits, tokenRulesLoop, _check_token_limits,
      query_usage, usageRatio, optTruthy, alookup, aset, ensureKey,
      MAX_DELAY_SECONDS, delay_ne_error]
  have hstiii : c5iiiState =
      { request_counters :=
          [("m", [(1, [(0, 1), (1250, 1)]), (10, [(0, 1), (1250, 1)])])],
        rules := [("m", [c5iiiRuleA, c5iiiRuleB])],
        next_allowed_request := [] } := by
    norm_num [c5iiiState, c5iiiRuleA, c5iiiRuleB, add_rule, record_request,
      alookup, aset, ensureKey, optTruthy]
  refine ⟨⟨?_, ?_, ?_, ?_⟩, ⟨?_, ?_⟩, ?_, ?_, ?_⟩
  · rw [hsti]; norm_num [alookup]
  · norm_num [c5iRuleB]
  · rw [hsti]; norm_num [cview, alookup]
  · rw [hsti]
    norm_num [check_request_limit, requestRulesLoop, _check_request_limits,
      _calculate_needed_delay, alookup, aset, ensureKey, optTruthy, cview,
      c5iRuleA, c5iRuleB, delay_ne_error, List.insertionSort,
      List.orderedInsert]
  · rw [hstii]
    norm_num [check_request_limit, alookup, cview]
  · norm_num
  · rw [hstiii]
    norm_num [check_request_limit, requestRulesLoop, _check_request_limits,
      alookup, aset, ensureKey, optTruthy, cview, c5iiiRuleA, c5iiiRuleB]
  · rw [hstiii]
    norm_num [check_request_limit, requestRulesLoop, _check_request_limits,
      alookup, aset, ensureKey, optTruthy, cview, c5iiiRuleA, c5iiiRuleB]
  · norm_num

/-- C5 (amended): for a check that is neither short-circuited by the
carry-over nor aborted by a `RateLimitError`, and for a window `w` carried by
at least one request rule of the model: after the check the `(model, w)`
counter holds no entry older than `now − 2w`, and every entry inside the
window `[now − w, now]` of the rules sharing that counter survives the
pruning with its count. -/
theorem C5_pruning (st : RLState) (model : String) (now : ℚ)
    (rules : List RateLimitRule) (w : ℕ)
    (hr : alookup st.rules model = some rules)
    (hc : carryBlocked st model now = false)
    (hok : (check_request_limit st model now).2 ≠ .raised)
    (hw : ∃ r ∈ rules, optTruthy r.requests = true ∧ r.window_minutes = w) :
    (∀ p ∈ cview (check_request_limit st model now).1.request_counters
        model w, now - 2 * w * 60 ≤ p.1) ∧
    (∀ p ∈ cview st.request_counters model w, now - w * 60 ≤ p.1 →
      p ∈ cview (check_request_limit st model now).1.request_counters
        model w) := by
  have hrun :
      check_request_limit st model now =
        (match requestRulesLoop model now rules st.request_counters 0 with
         | .raised cs => ({ st with request_counters := cs },
             CheckResult.raised)
         | .done cs max_delay => ({ st with request_counters := cs },
             CheckResult.ok
               (if 0 < max_delay then some max_delay else none))) := by
    unfold check_request_limit
    rw [hr]
    unfold carryBlocked at hc
    cases hna : alookup st.next_allowed_request model with
    | none =>
      cases hres : requestRulesLoop model now rules st.request_counters 0 <;>
        simp [hres]
    | some na =>
      rw [hna] at hc
      simp only [decide_eq_false_iff_not, not_lt] at hc
      cases hres : requestRulesLoop model now rules st.request_counters 0 <;>
        simp [hres, not_lt.mpr hc]
  have hprune := requestRulesLoop_prune model now rules st.request_counters 0
    w hw
  cases hres : requestRulesLoop model now rules st.request_counters 0 with
  | raised cs' =>
    rw [hres] at hrun
    rw [hrun] at hok
    exact absurd rfl hok
  | done cs' acc' =>
    rw [hres] at hrun hprune
    rw [hrun]
    simp only [] at hprune ⊢
    rw [hprune]
    constructor
    · intro p hp
      rw [List.mem_filter] at hp
      exact of_decide_eq_true hp.2
    · intro p hp hin
      rw [List.mem_filter]
      refine ⟨hp, decide_eq_true ?_⟩
      have hww : (0 : ℚ) ≤ (w : ℚ) * 60 := by positivity
      linarith

/-- The rule of the C5 witness: `(window=1, requests=5, DELAY)`. -/
def c5WRule : RateLimitRule :=
  { window_minutes := 1, requests := some 5, behavior := .DELAY }

/-- The C5 witness state: one request recorded at `t = 0`. -/
def c5WState : RLState :=
  record_request (add_rule {} "m" c5WRule) "m" 0

/-- Witness for the amended C5: checking at `t = 30` keeps the in-window
entry `(0, 1)` in the 1-minute counter, and that entry respects the `2w`
cutoff. -/
theorem C5_pruning_witness :
    ((0 : ℚ), 1) ∈
      cview (check_request_limit c5WState "m" 30).1.request_counters "m" 1 ∧
    (30 : ℚ) - 2 * 1 * 60 ≤ (((0 : ℚ), 1) : ℚ × ℕ).1 := by
  have hst : c5WState =
      { request_counters := [("m", [(1, [(0, 1)])])],
        rules := [("m", [c5WRule])],
        next_allowed_request := [] } := by
    norm_num [c5WState, c5WRule, add_rule, record_request, alookup, aset,
      ensureKey, optTruthy]
  have h := C5_pruning c5WState "m" 30 [c5WRule] 1
    (by rw [hst]; norm_num [alookup])
    (by rw [hst]; norm_num [carryBlocked, alookup])
    (by rw [hst]
        norm_num [check_request_limit, requestRulesLoop,
          _check_request_limits, _calculate_needed_delay, alookup, aset,
          ensureKey, optTruthy, cview, c5WRule, delay_ne_error,
          List.insertionSort, List.orderedInsert]
        decide)
    ⟨c5WRule, List.mem_singleton_self c5WRule, by norm_num [c5WRule, optTruthy],
      rfl⟩
  have hmem : ((0 : ℚ), 1) ∈
      cview (check_request_limit c5WState "m" 30).1.request_counters "m" 1 := by
    refine h.2 ((0 : ℚ), 1) ?_ (by norm_num)
    rw [hst]; norm_num [cview, alookup]
  exact ⟨hmem, h.1 ((0 : ℚ), 1) hmem⟩

/-! ## Claim C2 — proportional token delay -/

/-- A token rule is violated at `now` (the condition `check_token_limits`
reacts to): some configured token limit is exceeded by the usage queried
over `[now − window, now]`. -/
def violatesTokenRule (store : List UsageRecord) (model : String) (now : ℚ)
    (r : RateLimitRule) : Bool :=
  !(_check_token_limits store model r (now - r.window_minutes * 60) now).1

/-- The delay as claim C2 states it: the ratio is taken on whichever
dimension is *actually violated* (preferring total, else input, else
output), clamped to `≤ 2`, and the delay `window × 60 × (ratio − 1)` is
clamped to `MAX_DELAY_SECONDS`. -/
def claimedTokenDelayC2 (store : List UsageRecord) (model : String)
    (now : ℚ) (r : RateLimitRule) : ℚ :=
  let usage := query_usage store (now - r.window_minutes * 60) now model
  let ratio :=
    if optTruthy r.total_tokens &&
        decide (r.total_tokens.getD 0 < usage.total_tokens) then
      (usage.total_tokens : ℚ) / (r.total_tokens.getD 0 : ℕ)
    else if optTruthy r.input_tokens &&
        decide (r.input_tokens.getD 0 < usage.total_input_tokens) then
      (usage.total_input_tokens : ℚ) / (r.input_tokens.getD 0 : ℕ)
    else if optTruthy r.output_tokens &&
        decide (r.output_tokens.getD 0 < usage.total_output_tokens) then
      (usage.total_output_tokens : ℚ) / (r.output_tokens.getD 0 : ℕ)
    else 1
  min (r.window_minutes * 60 * (min 2 ratio - 1)) MAX_DELAY_SECONDS

/-- The rule of the C2 counterexample:
`(window=1, input_tokens=10, total_tokens=1000, DELAY)`. -/
def c2Rule : RateLimitRule :=
  { window_minutes := 1, input_tokens := some 10, total_tokens := some 1000,
    behavior := .DELAY }

/-- Usage store of the C2 counterexample: 20 input tokens at `t = 95` —
the input limit is exceeded, the total limit is not. -/
def c2Store : List UsageRecord :=
  [{ ts := 95, model := "m", input_tokens := 20, output_tokens := 0,
     total_tokens := 20 }]

/-- The C2 counterexample limiter state. -/
def c2State : RLState := add_rule {} "m" c2Rule

/-- C2 counterexample: at `now = 100` the DELAY rule is violated on the
*input* dimension (20 > 10) and the claim's "violated dimension" ratio gives
the delay `min(60 × (2 − 1), 60) = 60`; but the code prefers the configured
total limit (not violated, ratio `20/1000`), computes a negative delay, and
`check_token_limits` returns no delay at all. -/
theorem C2_counterexample :
    violatesTokenRule c2Store "m" 100 c2Rule = true ∧
    c2Rule.behavior = .DELAY ∧
    claimedTokenDelayC2 c2Store "m" 100 c2Rule = 60 ∧
    (check_token_limits c2State "m" 100 c2Store).2 = .ok none := by
  refine ⟨?_, rfl, ?_, ?_⟩
  · norm_num [violatesTokenRule, _check_token_limits, query_usage, c2Rule,
      c2Store, optTruthy]
  · norm_num [claimedTokenDelayC2, query_usage, c2Rule, c2Store, optTruthy,
      MAX_DELAY_SECONDS]
  · norm_num [c2State, c2Rule, c2Store, add_rule, check_token_limits,
      tokenRulesLoop, _check_token_limits, query_usage, usageRatio, optTruthy,
      alookup, aset, ensureKey, MAX_DELAY_SECONDS, delay_ne_error]

/-- Every delay accumulated by the token-rule loop stays `≤ MAX_DELAY_SECONDS`:
each per-rule delay is clamped by `min · MAX_DELAY_SECONDS`. -/
theorem tokenRulesLoop_le (store : List UsageRecord) (model : String)
    (now : ℚ) :
    ∀ (rules : List RateLimitRule) (na : List (String × ℚ)) (md : ℚ),
      md ≤ MAX_DELAY_SECONDS →
      (match tokenRulesLoop store model now rules na md with
       | .raised _ => True
       | .done _ md' => md' ≤ MAX_DELAY_SECONDS) := by
  intro rules
  induction rules with
  | nil => intro na md h; simpa [tokenRulesLoop] using h
  | cons r rest ih =>
    intro na md h
    simp only [tokenRulesLoop]
    split_ifs with h1 h2
    · exact ih na md h
    · trivial
    · exact ih _ _ (max_le h (min_le_right _ _))

/-- The rule of spec scenario S2: `(window=120, total_tokens=1000, DELAY)`. -/
def s2Rule : RateLimitRule :=
  { window_minutes := 120, total_tokens := some 1000, behavior := .DELAY }

theorem _check_token_limits_usage (store : List UsageRecord) (model : String)
    (rule : RateLimitRule) (start_time end_time : ℚ) :
    (_check_token_limits store model rule start_time end_time).2 =
      query_usage store start_time end_time model := by
  simp only [_check_token_limits]
  split_ifs <;> rfl

/-- C2 (amended): whenever `check_token_limits` returns a delay it is
positive and at most `MAX_DELAY_SECONDS = 60` — but the ratio is computed on
the code's preferred configured dimension (total first whenever a total
limit is set and the queried total is positive, regardless of which limit is
violated), not on the violated dimension.  In particular, with the single
rule `(window=120, total_tokens=1000, DELAY)` and a queried window total of
2000, the returned delay is exactly 60. -/
theorem C2_token_delay_cap (st : RLState) (model : String) (now : ℚ)
    (store : List UsageRecord) :
    (∀ d, (check_token_limits st model now store).2 = .ok (some d) →
      0 < d ∧ d ≤ MAX_DELAY_SECONDS) ∧
    (alookup st.rules model = some [s2Rule] →
      (query_usage store (now - 7200) now model).total_tokens = 2000 →
      (check_token_limits st model now store).2 = .ok (some 60)) := by
  constructor
  · intro d hd
    cases hr : alookup st.rules model with
    | none =>
      unfold check_token_limits at hd
      rw [hr] at hd
      simp at hd
    | some rules =>
      have hrun : (check_token_limits st model now store).2 =
          (match tokenRulesLoop store model now rules
              st.next_allowed_request 0 with
           | .raised _ => CheckResult.raised
           | .done _ md =>
               CheckResult.ok (if 0 < md then some md else none)) := by
        unfold check_token_limits
        rw [hr]
        cases hres : tokenRulesLoop store model now rules
            st.next_allowed_request 0 <;> simp [hres]
      rw [hrun] at hd
      have hle := tokenRulesLoop_le store model now rules
        st.next_allowed_request 0 (by norm_num [MAX_DELAY_SECONDS])
      cases hres : tokenRulesLoop store model now rules
          st.next_allowed_request 0 with
      | raised na => rw [hres] at hd; simp at hd
      | done na md =>
        rw [hres] at hd hle
        simp only [] at hd hle
        by_cases hpos : 0 < md
        · rw [if_pos hpos] at hd
          simp only [CheckResult.ok.injEq, Option.some.injEq] at hd
          subst hd
          exact ⟨hpos, hle⟩
        · rw [if_neg hpos] at hd
          simp at hd
  · intro hrules hq
    have hwithin : (_check_token_limits store model s2Rule
        (now - s2Rule.window_minutes * 60) now).1 = false := by
      unfold _check_token_limits
      norm_num [s2Rule, optTruthy, hq]
    have husage := _check_token_limits_usage store model s2Rule
      (now - s2Rule.window_minutes * 60) now
    have hratio : usageRatio s2Rule (query_usage store
        (now - s2Rule.window_minutes * 60) now model) = 2 := by
      norm_num [usageRatio, s2Rule, optTruthy, hq]
    have hrun : (check_token_limits st model now store).2 =
        (match tokenRulesLoop store model now [s2Rule]
            st.next_allowed_request 0 with
         | .raised _ => CheckResult.raised
         | .done _ md =>
             CheckResult.ok (if 0 < md then some md else none)) := by
      unfold check_token_limits
      rw [hrules]
      cases hres : tokenRulesLoop store model now [s2Rule]
          st.next_allowed_request 0 <;> simp [hres]
    rw [hrun]
    have hbeh : s2Rule.behavior = RateLimitBehavior.DELAY := rfl
    have hbne : (RateLimitBehavior.DELAY = RateLimitBehavior.ERROR) = False :=
      eq_false delay_ne_error
    simp only [tokenRulesLoop, hwithin, Bool.false_eq_true, if_false, husage,
      hratio, hbeh, hbne]
    norm_num [s2Rule, MAX_DELAY_SECONDS]

/-- Data of the C2 witness: a single usage row with total 2000 inside the
queried window. -/
def c2WStore : List UsageRecord :=
  [{ ts := 100, model := "m", input_tokens := 1000, output_tokens := 1000,
     total_tokens := 2000 }]

/-- The C2 witness limiter state: only scenario S2's rule. -/
def c2WState : RLState := add_rule {} "m" s2Rule

/-- Witness for the amended C2: scenario S2 returns exactly `some 60`,
which is positive and `≤ 60`. -/
theorem C2_token_delay_cap_witness :
    (check_token_limits c2WState "m" 7300 c2WStore).2 = .ok (some 60) ∧
    (0 : ℚ) < 60 ∧ (60 : ℚ) ≤ MAX_DELAY_SECONDS := by
  have h := C2_token_delay_cap c2WState "m" 7300 c2WStore
  have h2 := h.2
    (by norm_num [c2WState, add_rule, alookup, aset])
    (by norm_num [query_usage, c2WStore])
  refine ⟨h2, by norm_num, by norm_num [MAX_DELAY_SECONDS]⟩

/-! ## Claim C1 — scenario S1: sliding-window request limit with ERROR -/

/-- The rule of spec scenario S1: `(window=5, requests=3, ERROR)`. -/
def s1Rule : RateLimitRule :=
  { window_minutes := 5, requests := some 3, behavior := .ERROR }

/-- C1: with the single rule `(window_minutes=5, requests=3, ERROR)` on
`test-model`, no carry-over armed, and requests recorded at `t`, `t+1min` and
`t+2min`, `check_request_limit` at `t+3min` raises `RateLimitError`, and
`check_request_limit` at `t+6min` (on the state left by the raising check)
returns `None`. -/
theorem C1_sliding_window_request_limit (t : ℚ) :
    (check_request_limit
        (record_request
          (record_request
            (record_request (add_rule {} "test-model" s1Rule) "test-model" t)
            "test-model" (t + 60))
          "test-model" (t + 120))
        "test-model" (t + 180)).2 = .raised ∧
    (check_request_limit
        (check_request_limit
          (record_request
            (record_request
              (record_request (add_rule {} "test-model" s1Rule) "test-model" t)
              "test-model" (t + 60))
            "test-model" (t + 120))
          "test-model" (t + 180)).1
        "test-model" (t + 360)).2 = .ok none := by
  have hrec :
      record_request
          (record_request
            (record_request (add_rule {} "test-model" s1Rule) "test-model" t)
            "test-model" (t + 60))
          "test-model" (t + 120) =
        { request_counters :=
            [("test-model", [(5, [(t, 1), (t + 60, 1), (t + 120, 1)])])],
          rules := [("test-model", [s1Rule])],
          next_allowed_request := [] } := by
    norm_num [s1Rule, add_rule, record_request, alookup, aset, ensureKey,
      optTruthy]
  rw [hrec]
  have hchk :
      check_request_limit
          { request_counters :=
              [("test-model", [(5, [(t, 1), (t + 60, 1), (t + 120, 1)])])],
            rules := [("test-model", [s1Rule])],
            next_allowed_request := [] }
          "test-model" (t + 180) =
        (({ request_counters :=
              [("test-model", [(5, [(t, 1), (t + 60, 1), (t + 120, 1)])])],
            rules := [("test-model", [s1Rule])],
            next_allowed_request := [] } : RLState), CheckResult.raised) := by
    norm_num [s1Rule, check_request_limit, requestRulesLoop,
      _check_request_limits, alookup, aset, ensureKey, optTruthy, add_assoc,
      add_le_add_iff_left]
  rw [hchk]
  refine ⟨rfl, ?_⟩
  norm_num [s1Rule, check_request_limit, requestRulesLoop,
    _check_request_limits, alookup, aset, ensureKey, optTruthy, add_assoc,
    add_le_add_iff_left]

/-! ## Claim C10 — models without configured rules -/

theorem cview_ensureKey_nil (cs : Counters) (model m : String) (w : ℕ) :
    cview (ensureKey cs model []) m w = cview cs m w := by
  unfold cview
  rw [alookup_ensureKey]
  by_cases h : model = m
  · subst h; simp
  · rw [if_neg h]

/-- C10: for a model with no configured rules, `check_request_limit` and
`check_token_limits` return `None` without raising and without touching the
state — whatever is recorded or armed for other models — and
`record_request` leaves every per-window counter unchanged. -/
theorem C10_no_rules (st : RLState) (model : String) (now : ℚ)
    (store : List UsageRecord)
    (h : alookup st.rules model = none) :
    check_request_limit st model now = (st, .ok none) ∧
    check_token_limits st model now store = (st, .ok none) ∧
    ∀ m w, cview (record_request st model now).request_counters m w =
      cview st.request_counters m w := by
  refine ⟨?_, ?_, ?_⟩
  · unfold check_request_limit
    rw [h]
  · unfold check_token_limits
    rw [h]
  · intro m w
    unfold record_request
    rw [h]
    simp only [Option.getD_none, List.foldl_nil]
    exact cview_ensureKey_nil st.request_counters model m w

/-- The C10 witness state: rules, a counter entry and an armed carry-over,
all for model `"other"` only. -/
def c10State : RLState :=
  { request_counters := [("other", [(5, [(0, 1)])])],
    rules := [("other", [s1Rule])],
    next_allowed_request := [("other", 100)] }

/-- Witness for C10: the model `"m"` has no rules in `c10State`, so both
checks return `None` at `t = 50` (despite `"other"`'s armed carry-over) and
recording keeps all counters. -/
theorem C10_no_rules_witness :
    check_request_limit c10State "m" 50 = (c10State, .ok none) ∧
    check_token_limits c10State "m" 50 [] = (c10State, .ok none) ∧
    cview (record_request c10State "m" 50).request_counters "other" 5 =
      cview c10State.request_counters "other" 5 := by
  have h := C10_no_rules c10State "m" 50 [] (by decide)
  exact ⟨h.1, h.2.1, h.2.2 "other" 5⟩

/-! ## `server.py` — request normalization (`preprocess_request_body`) -/

/-- One element of a message's content array. -/
structure ContentItem where
  type : String
  text : String
deriving DecidableEq, Repr

/-- The `content` field of a chat message: a JSON string, an array of typed
items, or any other JSON value (left untouched by the normalizer). -/
inductive MsgContent
  | str (s : String)
  | arr (items : List ContentItem)
  | other
deriving DecidableEq, Repr

/-- A chat message. -/
structure Msg where
  role : String
  content : MsgContent
deriving DecidableEq, Repr

/-- The request body fields `preprocess_request_body` touches.  A missing or
empty `messages` array is Python-falsy and short-circuits the function. -/
structure ReqBody where
  model : String := ""
  messages : Option (List Msg) := none
  max_tokens : Option ℕ := none
deriving DecidableEq, Repr

/-- The per-item loop of the content-array branch: every element must have
`type = "text"`, and each becomes a standalone `{role, content}` message
with sanitized text.  The external `StringSanitizer` (not part of the core)
is the `sanitize` parameter — the code always keeps `result.text`. -/
def processArrayItems (sanitize : String → String) (role : String) :
    List ContentItem → Except String (List Msg)
  | [] => .ok []
  | item :: rest =>
    if item.type ≠ "text" then
      .error "Only text type is supported in content array"
    else
      match processArrayItems sanitize role rest with
      | .error e => .error e
      | .ok tail =>
          .ok ({ role := role, content := .str (sanitize item.text) } :: tail)

/-- The message loop of `preprocess_request_body`: string content is
sanitized in place, non-string non-array content passes through, array
content is expanded by `processArrayItems`. -/
def processMessages (sanitize : String → String) :
    List Msg → Except String (List Msg)
  | [] => .ok []
  | m :: rest =>
    let head : Except String (List Msg) :=
      match m.content with
      | .str s => .ok [{ role := m.role, content := .str (sanitize s) }]
      | .other => .ok [m]
      | .arr items => processArrayItems sanitize m.role items
    match head with
    | .error e => .error e
    | .ok hd =>
      match processMessages sanitize rest with
      | .error e => .error e
      | .ok tl => .ok (hd ++ tl)

/-- Python `s.startswith(p)`, computed on the character lists. -/
def pyStartsWith (s p : String) : Bool :=
  p.toList.isPrefixOf s.toList

/-- The `o1` rewrite: models whose name starts with `"o1"` get every
`system` role replaced by `user` (`if model and model.startswith("o1")`). -/
def o1Rewrite (model : String) (msgs : List Msg) : List Msg :=
  if model ≠ "" ∧ pyStartsWith model "o1" then
    msgs.map (fun m =>
      if m.role = "system" then { m with role := "user" } else m)
  else msgs

/-- `preprocess_request_body` from `server.py` (the `sanitize` parameter
stands for the external `StringSanitizer`, `settings_max_tokens` for
`settings.max_tokens`). -/
def preprocess_request_body (sanitize : String → String)
    (settings_max_tokens : ℕ) (body : ReqBody) : Except String ReqBody :=
  match body.messages with
  | none => .ok body
  | some [] => .ok body
  | some msgs =>
    match processMessages sanitize msgs with
    | .error e => .error e
    | .ok processed =>
      .ok { body with
            messages := some (o1Rewrite body.model processed),
            max_tokens := some (body.max_tokens.getD settings_max_tokens) }

/-! ## Claim C6 — `o1` models carry no system messages -/

/-- C6: whenever the model name starts with `"o1"` and normalization
succeeds, no message of the produced body has role `"system"`. -/
theorem C6_o1_no_system_role (sanitize : String → String) (dflt : ℕ)
    (body body' : ReqBody)
    (hm : pyStartsWith body.model "o1" = true)
    (hp : preprocess_request_body sanitize dflt body = .ok body') :
    ∀ m ∈ body'.messages.getD [], m.role ≠ "system" := by
  have hmodel : body.model ≠ "" := by
    intro hempty
    rw [hempty] at hm
    exact absurd hm (by decide)
  cases hmsgs : body.messages with
  | none =>
    simp only [preprocess_request_body, hmsgs, Except.ok.injEq] at hp
    subst hp
    simp [hmsgs]
  | some msgs =>
    cases msgs with
    | nil =>
      simp only [preprocess_request_body, hmsgs, Except.ok.injEq] at hp
      subst hp
      simp [hmsgs]
    | cons m0 rest =>
      simp only [preprocess_request_body, hmsgs] at hp
      cases hproc : processMessages sanitize (m0 :: rest) with
      | error e => rw [hproc] at hp; simp at hp
      | ok processed =>
        rw [hproc] at hp
        simp only [Except.ok.injEq] at hp
        subst hp
        intro m hmem
        simp only [Option.getD_some] at hmem
        unfold o1Rewrite at hmem
        rw [if_pos ⟨hmodel, hm⟩] at hmem
        rw [List.mem_map] at hmem
        obtain ⟨x, _, hx⟩ := hmem
        by_cases hrole : x.role = "system"
        · rw [if_pos hrole] at hx
          rw [← hx]
          intro hcontra
          simp at hcontra
        · rw [if_neg hrole] at hx
          rw [← hx]
          exact hrole

/-- The C6 witness request body — spec scenario S4's messages. -/
def c6Body : ReqBody :=
  { model := "o1-mini",
    messages := some [{ role := "system", content := .str "x" },
                      { role := "user", content := .str "y" }] }

/-- The body `preprocess_request_body` produces for `c6Body`. -/
def c6Body' : ReqBody :=
  { model := "o1-mini",
    messages := some [{ role := "user", content := .str "x" },
                      { role := "user", content := .str "y" }],
    max_tokens := some 10240 }

/-- Witness for C6: normalizing scenario S4's body (identity sanitizer,
default `max_tokens` 10240) rewrites the system message to user — the first
produced message has a non-system role. -/
theorem C6_o1_no_system_role_witness :
    ({ role := "user", content := .str "x" } : Msg).role ≠ "system" :=
  C6_o1_no_system_role id 10240 c6Body c6Body' (by decide) (by rfl)
    { role := "user", content := .str "x" } (by decide)

/-! ## `server.py` — usage extraction and recording -/

/-- The `usage` object of an SSE event (`.get(key, 0)` on each field). -/
structure SSEUsage where
  prompt_tokens : ℕ := 0
  completion_tokens : ℕ := 0
  total_tokens : ℕ := 0
deriving DecidableEq, Repr

/-- A parsed SSE event as the usage pipeline sees it: only the optional
`usage` object matters; `data.get("usage", {})` followed by `if usage:`
skips events whose usage is absent (or an empty dict, which carries the same
zero contributions). -/
structure SSEEvent where
  usage : Option SSEUsage := none
deriving DecidableEq, Repr

/-- `extract_usage_from_response`: sum the three usage fields over all
events that carry a usage object. -/
def extract_usage_from_response (data_list : List SSEEvent) : SSEUsage :=
  data_list.foldl
    (fun acc d =>
      match d.usage with
      | some u =>
        { prompt_tokens := acc.prompt_tokens + u.prompt_tokens
          completion_tokens := acc.completion_tokens + u.completion_tokens
          total_tokens := acc.total_tokens + u.total_tokens }
      | none => acc)
    {}

/-- `TokenUsage.record_usage_from_response`: record
`usage_data["prompt_tokens"]` as input and `usage_data["completion_tokens"]`
as output (the summed `total_tokens` is ignored; the store derives
`total = input + output`). -/
def record_usage_from_response (store : List UsageRecord) (model : String)
    (usage_data : SSEUsage) (now : ℚ) : List UsageRecord :=
  record_usage store model usage_data.prompt_tokens
    usage_data.completion_tokens now

/-- `process_usage_and_show_statistics`: nothing happens for an empty event
list; otherwise the combined usage is recorded.  The Python guard
`if token_usage and usage_data:` is always true here: `usage_data` is a
dict that always carries its three keys, and a non-empty dict is truthy even
when all its values are zero. -/
def process_usage_and_show_statistics (store : List UsageRecord)
    (model : String) (parsed_events : List SSEEvent) (now : ℚ) :
    List UsageRecord :=
  if parsed_events.isEmpty then store
  else
    record_usage_from_response store model
      (extract_usage_from_response parsed_events) now

/-! ## Claim C8 — usage recording (code bug: zero records) -/

/-- C8, failing input: a non-empty event list in which *no* event carries a
usage object.  The spec (and the code's own comment "Record the token usage
if available") says no record may be written; the code's truthiness test
`if token_usage and usage_data:` can never be false, so an all-zero record
*is* appended.  The sum part of the claim is visible on spec scenario S5's
two events: a single record `input=15, output=25, total=40`. -/
theorem C8_zero_record_written :
    process_usage_and_show_statistics [] "m" [{ usage := none }] 0 =
      [{ ts := 0, model := "m", input_tokens := 0, output_tokens := 0,
         total_tokens := 0 }] ∧
    process_usage_and_show_statistics [] "m"
      [{ usage := some { prompt_tokens := 10, completion_tokens := 20,
                         total_tokens := 30 } },
       { usage := some { prompt_tokens := 5, completion_tokens := 5,
                         total_tokens := 10 } }] 0 =
      [{ ts := 0, model := "m", input_tokens := 15, output_tokens := 25,
         total_tokens := 40 }] := by
  constructor <;> rfl

/-! ## `server.py` — SSE parsing (`parse_accumulated_sse_data`) -/

/-- Python `str.strip`'s whitespace test (the ASCII whitespace characters). -/
def pyIsSpace (c : Char) : Bool :=
  c = ' ' || c = '\t' || c = '\n' || c = '\r' ||
    c = Char.ofNat 11 || c = Char.ofNat 12

/-- Python `part.strip()` on a character list. -/
def pyStrip (l : List Char) : List Char :=
  ((l.dropWhile pyIsSpace).reverse.dropWhile pyIsSpace).reverse

/-- Python `accumulated_text.split("\n\n")`: split on every leftmost,
non-overlapping occurrence of the two-newline separator. -/
def splitNN : List Char → List (List Char)
  | [] => [[]]
  | [c] => [[c]]
  | c :: d :: rest =>
    if c = '\n' ∧ d = '\n' then [] :: splitNN rest
    else
      match splitNN (d :: rest) with
      | [] => [[c]]
      | p :: ps => (c :: p) :: ps

theorem splitNN_sep (rest : List Char) :
    splitNN ('\n' :: '\n' :: rest) = [] :: splitNN rest := by
  simp [splitNN]

theorem splitNN_nosep {c d : Char} (rest : List Char)
    (h : ¬(c = '\n' ∧ d = '\n')) {p : List Char} {ps : List (List Char)}
    (h2 : splitNN (d :: rest) = p :: ps) :
    splitNN (c :: d :: rest) = (c :: p) :: ps := by
  simp [splitNN, if_neg h, h2]

/-- The characters of `"data: "`. -/
def dataPrefix : List Char := ['d', 'a', 't', 'a', ':', ' ']

/-- The characters of `"data: [DONE]"`. -/
def doneMarker : List Char :=
  ['d', 'a', 't', 'a', ':', ' ', '[', 'D', 'O', 'N', 'E', ']']

/-- The characters of the terminal frame `"data: [DONE]\n\n"`. -/
def doneChunk : List Char := doneMarker ++ ['\n', '\n']

/-- One part of the split: after stripping, it is kept when non-empty,
starting with `"data: "` and different from `"data: [DONE]"`; the JSON
payload drops that prefix (`part.replace("data: ", "", 1)` removes the
leftmost occurrence, which the guard places at position 0). -/
def ssePartPayload (part : List Char) : Option (List Char) :=
  let q := pyStrip part
  if q ≠ [] ∧ dataPrefix.isPrefixOf q ∧ q ≠ doneMarker then
    some (q.drop 6)
  else none

/-- `parse_accumulated_sse_data`, parametric in the JSON decoder; payloads
the decoder rejects (malformed JSON) are skipped, never fatal. -/
def parse_accumulated_sse_data {J : Type} (decode : List Char → Option J)
    (accumulated_text : List Char) : List J :=
  (splitNN accumulated_text).filterMap
    (fun part => (ssePartPayload part).bind decode)

theorem splitNN_ne_nil : ∀ s, splitNN s ≠ [] := by
  intro s
  induction s using splitNN.induct with
  | case1 => simp [splitNN]
  | case2 c => simp [splitNN]
  | case3 c d rest h ih => simp [splitNN, h]
  | case4 c d rest h h2 ih => simp [splitNN, if_neg h, h2]
  | case5 c d rest h p ps h2 ih => simp [splitNN, if_neg h, h2]

/-- Glue two split results at the seam: the last part of the first run and
the first part of the second belong to the same part of the whole. -/
def joinLast : List (List Char) → List (List Char) → List (List Char)
  | [], qs => qs
  | [p], [] => [p]
  | [p], q :: qs => (p ++ q) :: qs
  | p :: p2 :: ps, qs => p :: joinLast (p2 :: ps) qs

/-- Splitting distributes over append when no separator spans the seam
(the appended text does not start with a newline). -/
theorem splitNN_append (t : List Char) (ht : t.head? ≠ some '\n') :
    ∀ s, splitNN (s ++ t) = joinLast (splitNN s) (splitNN t) := by
  intro s
  induction s using splitNN.induct with
  | case1 =>
    simp only [List.nil_append, splitNN]
    cases hq : splitNN t with
    | nil => exact absurd hq (splitNN_ne_nil t)
    | cons q qs => simp [joinLast]
  | case2 c =>
    cases htl : t with
    | nil => simp [splitNN, joinLast]
    | cons d rest =>
      subst htl
      have hd : ¬(c = '\n' ∧ d = '\n') := by
        rintro ⟨-, hdn⟩
        simp [hdn] at ht
      cases hs : splitNN (d :: rest) with
      | nil => exact absurd hs (splitNN_ne_nil _)
      | cons p ps =>
        have h1 : [c] ++ d :: rest = c :: d :: rest := rfl
        rw [h1, splitNN_nosep rest hd hs]
        simp [splitNN, joinLast]
  | case3 c d rest h ih =>
    obtain ⟨hc, hd⟩ := h
    subst hc; subst hd
    have hl : ('\n' :: '\n' :: rest) ++ t = '\n' :: '\n' :: (rest ++ t) := rfl
    rw [hl, splitNN_sep, splitNN_sep, ih]
    cases hs : splitNN rest with
    | nil => exact absurd hs (splitNN_ne_nil _)
    | cons q qs => simp [joinLast]
  | case4 c d rest h h2 ih => exact absurd h2 (splitNN_ne_nil _)
  | case5 c d rest h p ps h2 ih =>
    have hl : (c :: d :: rest) ++ t = c :: ((d :: rest) ++ t) := rfl
    rw [hl]
    rw [splitNN_nosep rest h h2]
    cases hres : splitNN ((d :: rest) ++ t) with
    | nil => exact absurd hres (splitNN_ne_nil _)
    | cons q qs =>
      have hq : joinLast (p :: ps) (splitNN t) = q :: qs := by
        rw [← h2, ← ih]; exact hres
      have hlhs : splitNN (c :: ((d :: rest) ++ t)) = (c :: q) :: qs := by
        apply splitNN_nosep _ h
        exact hres
      rw [hlhs]
      cases ps with
      | nil =>
        cases hst : splitNN t with
        | nil => exact absurd hst (splitNN_ne_nil t)
        | cons r rs =>
          rw [hst] at hq
          simp only [joinLast] at hq ⊢
          injection hq with hq1 hq2
          subst hq1; subst hq2
          rfl
      | cons p2 ps2 =>
        simp only [joinLast] at hq ⊢
        injection hq with hq1 hq2
        subst hq1; subst hq2
        rfl

/-- `s` ends with the separator `"\n\n"`. -/
def endsNN (s : List Char) : Prop := ∃ y, s = y ++ ['\n', '\n']

theorem endsNN_cons_cons {c d : Char} {rest : List Char}
    (h : endsNN (c :: d :: rest)) (hne : rest ≠ []) : endsNN (d :: rest) := by
  obtain ⟨y, hy⟩ := h
  cases y with
  | nil =>
    simp only [List.nil_append, List.cons.injEq] at hy
    exact absurd hy.2.2 hne
  | cons a y' =>
    simp only [List.cons_append, List.cons.injEq] at hy
    exact ⟨y', hy.2⟩

theorem endsNN_pair {c d : Char} (h : endsNN [c, d]) :
    c = '\n' ∧ d = '\n' := by
  obtain ⟨y, hy⟩ := h
  cases y with
  | nil =>
    simp only [List.nil_append, List.cons.injEq] at hy
    exact ⟨hy.1, hy.2.1⟩
  | cons a y' =>
    have := congrArg List.length hy
    simp [List.length_append] at this

theorem not_endsNN_nil : ¬ endsNN [] := by
  rintro ⟨y, hy⟩
  have := congrArg List.length hy
  simp [List.length_append] at this

theorem not_endsNN_single (c : Char) : ¬ endsNN [c] := by
  rintro ⟨y, hy⟩
  have := congrArg List.length hy
  simp [List.length_append] at this

theorem two_le_splitNN_length : ∀ s, endsNN s → 2 ≤ (splitNN s).length := by
  intro s
  induction s using splitNN.induct with
  | case1 => intro h; exact absurd h not_endsNN_nil
  | case2 c => intro h; exact absurd h (not_endsNN_single c)
  | case3 c d rest h ih =>
    intro _
    obtain ⟨hc, hd⟩ := h
    subst hc; subst hd
    rw [splitNN_sep]
    cases hs : splitNN rest with
    | nil => exact absurd hs (splitNN_ne_nil _)
    | cons q qs => simp
  | case4 c d rest h h2 ih => exact absurd h2 (splitNN_ne_nil _)
  | case5 c d rest h p ps h2 ih =>
    intro hends
    cases hrest : rest with
    | nil =>
      subst hrest
      exact absurd (endsNN_pair hends) h
    | cons r1 rest' =>
      subst hrest
      have hdr : endsNN (d :: r1 :: rest') :=
        endsNN_cons_cons hends (by simp)
      have := ih hdr
      rw [h2] at this
      rw [splitNN_nosep _ h h2]
      simpa using this

theorem splitNN_last_of_endsNN :
    ∀ s, endsNN s →
      (splitNN s).getLast? = some [] ∨ (splitNN s).getLast? = some ['\n'] := by
  intro s
  induction s using splitNN.induct with
  | case1 => intro h; exact absurd h not_endsNN_nil
  | case2 c => intro h; exact absurd h (not_endsNN_single c)
  | case3 c d rest h ih =>
    intro hends
    obtain ⟨hc, hd⟩ := h
    subst hc; subst hd
    rw [splitNN_sep]
    cases hrest : rest with
    | nil => left; rfl
    | cons r1 rest' =>
      subst hrest
      cases hrest' : rest' with
      | nil =>
        subst hrest'
        obtain ⟨y, hy⟩ := hends
        have hr1 : r1 = '\n' := by
          cases y with
          | nil =>
            have := congrArg List.length hy
            simp [List.length_append] at this
          | cons a y' =>
            cases y' with
            | nil =>
              simp only [List.cons_append, List.nil_append,
                List.cons.injEq] at hy
              exact hy.2.2.1
            | cons b y'' =>
              have := congrArg List.length hy
              simp [List.length_append] at this
        subst hr1
        right; rfl
      | cons r2 rest'' =>
        subst hrest'
        have h1 : endsNN ('\n' :: r1 :: r2 :: rest'') :=
          endsNN_cons_cons hends (by simp)
        have h2 : endsNN (r1 :: r2 :: rest'') :=
          endsNN_cons_cons h1 (by simp)
        have := ih h2
        cases hs : splitNN (r1 :: r2 :: rest'') with
        | nil => exact absurd hs (splitNN_ne_nil _)
        | cons q qs =>
          rw [hs] at this
          rw [List.getLast?_cons_cons]
          exact this
  | case4 c d rest h h2 ih => exact absurd h2 (splitNN_ne_nil _)
  | case5 c d rest h p ps h2 ih =>
    intro hends
    cases hrest : rest with
    | nil =>
      subst hrest
      exact absurd (endsNN_pair hends) h
    | cons r1 rest' =>
      subst hrest
      have hdr : endsNN (d :: r1 :: rest') :=
        endsNN_cons_cons hends (by simp)
      rw [splitNN_nosep _ h h2]
      cases hps : ps with
      | nil =>
        subst hps
        have hlen := two_le_splitNN_length (d :: r1 :: rest') hdr
        rw [h2] at hlen
        simp at hlen
      | cons q qs =>
        subst hps
        have := ih hdr
        rw [h2] at this
        rw [List.getLast?_cons_cons]
        rwa [List.getLast?_cons_cons] at this

theorem joinLast_append_last :
    ∀ (ps : List (List Char)) (L q : List Char) (qs : List (List Char)),
      joinLast (ps ++ [L]) (q :: qs) = ps ++ ((L ++ q) :: qs) := by
  intro ps
  induction ps with
  | nil => intro L q qs; simp [joinLast]
  | cons p ps ih =>
    intro L q qs
    cases hx : ps ++ [L] with
    | nil => simp at hx
    | cons x xs =>
      have h1 : (p :: ps) ++ [L] = p :: x :: xs := by rw [List.cons_append, hx]
      rw [h1]
      simp only [joinLast]
      rw [← hx, ih]
      simp

/-- C7 (amended): appending the terminal `"data: [DONE]\n\n"` frame does not
change the parse result, provided the accumulated text is empty or ends with
the frame delimiter `"\n\n"` (the original claim fails for texts with an
incomplete trailing frame). -/
theorem C7_parse_done_invariant {J : Type} (decode : List Char → Option J)
    (X : List Char) (h : X = [] ∨ endsNN X) :
    parse_accumulated_sse_data decode (X ++ doneChunk) =
      parse_accumulated_sse_data decode X := by
  have hpm : ssePartPayload doneMarker = none := by decide
  have hpe : ssePartPayload [] = none := by decide
  have hpn : ssePartPayload ['\n'] = none := by decide
  have hpnm : ssePartPayload ('\n' :: doneMarker) = none := by decide
  have hsD : splitNN doneChunk = [doneMarker, []] := by decide
  have hhead : doneChunk.head? ≠ some '\n' := by decide
  rcases h with hnil | hends
  · subst hnil
    rw [List.nil_append]
    unfold parse_accumulated_sse_data
    rw [hsD, show splitNN [] = [[]] from rfl]
    simp [List.filterMap_cons, hpm, hpe]
  · have hne := splitNN_ne_nil X
    have hlast := splitNN_last_of_endsNN X hends
    rw [List.getLast?_eq_getLast _ hne] at hlast
    simp only [Option.some.injEq] at hlast
    have hdecomp := List.dropLast_append_getLast hne
    obtain ⟨PS, L, hSX, hLcase⟩ :
        ∃ ps l, splitNN X = ps ++ [l] ∧ (l = [] ∨ l = ['\n']) :=
      ⟨(splitNN X).dropLast, (splitNN X).getLast hne, hdecomp.symm, hlast⟩
    have happ := splitNN_append doneChunk hhead X
    rw [hsD, hSX, joinLast_append_last] at happ
    unfold parse_accumulated_sse_data
    rw [happ, hSX, List.filterMap_append, List.filterMap_append]
    rcases hLcase with hL | hL <;> subst hL <;>
      simp [List.filterMap_cons, hpm, hpe, hpn, hpnm]

/-- A digit-string decoder agreeing with `json.loads` on the payloads of the
C7 counterexample: a string of digits decodes to the number, anything else
(e.g. a number followed by garbage) is a decode error. -/
def decodeNatStrict (l : List Char) : Option ℕ :=
  if l ≠ [] ∧ l.all (fun c => c.isDigit) then
    some (l.foldl (fun n c => 10 * n + (c.toNat - 48)) 0)
  else none

/-- C7 counterexample: for `X = "data: 5"` (an incomplete trailing frame),
parsing `X` yields the decoded event `5`, but in `X ++ "data: [DONE]\n\n"`
the trailing frame merges with the marker into `"data: 5data: [DONE]"`,
whose payload `"5data: [DONE]"` is malformed JSON and is skipped: the two
parses differ, refuting the unconditional claim. -/
theorem C7_counterexample :
    parse_accumulated_sse_data decodeNatStrict (dataPrefix ++ ['5']) =
      [5] ∧
    parse_accumulated_sse_data decodeNatStrict
      ((dataPrefix ++ ['5']) ++ doneChunk) = [] := by
  constructor <;> decide

/-- Witness for the amended C7: `X = "data: 5\n\n"` ends with the delimiter,
and appending the terminal frame leaves the parse unchanged. -/
theorem C7_parse_done_invariant_witness :
    parse_accumulated_sse_data decodeNatStrict
      ((dataPrefix ++ ['5', '\n', '\n']) ++ doneChunk) =
      parse_accumulated_sse_data decodeNatStrict
        (dataPrefix ++ ['5', '\n', '\n']) :=
  C7_parse_done_invariant decodeNatStrict (dataPrefix ++ ['5', '\n', '\n'])
    (Or.inr ⟨dataPrefix ++ ['5'], by decide⟩)


/-! ## `access_token.py` — credential pool and session-token cache -/

/-- A session token as `refresh_token` returns it (the `endpoints` field is
not read by the caching logic). -/
structure TokenData where
  token : String
  expires_at : ℚ
deriving DecidableEq, Repr

/-- The module state of `access_token.py`: `CACHED_TOKENS`, `TOKEN_ERRORS`
and `settings.active_token_index`. -/
structure TokenPoolState where
  cached_tokens : List (ℕ × TokenData) := []
  token_errors : List (ℕ × String) := []
  active_token_index : ℕ := 0
deriving DecidableEq, Repr

/-- `cache_copilot_token`: store the token under `index` and clear any
error recorded for that index ("since it's now working"). -/
def cache_copilot_token (st : TokenPoolState) (token_data : TokenData)
    (index : ℕ) : TokenPoolState :=
  { st with
    cached_tokens := aset st.cached_tokens index token_data,
    token_errors := adel st.token_errors index }

/-- `record_token_error`. -/
def record_token_error (st : TokenPoolState) (index : ℕ) (msg : String) :
    TokenPoolState :=
  { st with token_errors := aset st.token_errors index msg }

/-- The `for i in range(current_index+1, len(tokens))` loop of
`try_next_valid_token`: validate each candidate index by refreshing it
(`refreshAt` is `refresh_token` at the enclosing recursion depth); the
first success becomes the new active index; when every candidate fails,
"All available tokens have failed". -/
def try_token_indices
    (refreshAt : ℕ → TokenPoolState → TokenPoolState × Except String TokenData)
    (tokens : List String) :
    List ℕ → TokenPoolState → TokenPoolState × Except String Unit
  | [], st => (st, .error "All available tokens have failed")
  | i :: rest, st =>
    match refreshAt i st with
    | (st', .ok _) =>
      if i < tokens.length then
        ({ st' with active_token_index := i }, .ok ())
      else (st', .error "Invalid token index")
    | (st', .error _) => try_token_indices refreshAt tokens rest st'

/-- `refresh_token` (with recursion-depth fuel; the Python original recurses
unboundedly).  `none` as the index means the current active index.  On a
200 the error state of the index is cleared and the parsed body returned —
*without* caching it.  On failure the error is recorded; when the failed
index is the active one the function fails over to a later credential and
returns `refresh_token()` of the *new* active index through this same call
frame. -/
def refresh_token_fuel (tokens : List String)
    (exchange : ℕ → Option TokenData) :
    ℕ → Option ℕ → TokenPoolState → TokenPoolState × Except String TokenData
  | 0, _, st => (st, .error "recursion limit")
  | fuel + 1, idxOpt, st =>
    let token_index := idxOpt.getD st.active_token_index
    if tokens.length ≤ token_index then
      (st, .error "Invalid token index")
    else
      match exchange token_index with
      | some token_data =>
        ({ st with token_errors := adel st.token_errors token_index },
          .ok token_data)
      | none =>
        let st := record_token_error st token_index "Failed to refresh token"
        if token_index = st.active_token_index then
          match try_token_indices
              (fun i s => refresh_token_fuel tokens exchange fuel (some i) s)
              tokens
              (List.range' (st.active_token_index + 1)
                (tokens.length - (st.active_token_index + 1))) st with
          | (st', .ok _) => refresh_token_fuel tokens exchange fuel none st'
          | (st', .error e) =>
            (record_token_error st' token_index e, .error e)
        else (st, .error "Failed to refresh token")

/-- `get_cached_copilot_token`: return the cached token of the active index
while it is valid for at least 300 more seconds; otherwise refresh the
active index and cache the result under `current_index` — the index read
*before* the refresh.  When the refresh raises, fail over and retry. -/
def get_cached_copilot_token_fuel (tokens : List String)
    (exchange : ℕ → Option TokenData) :
    ℕ → ℚ → TokenPoolState → TokenPoolState × Except String TokenData
  | 0, _, st => (st, .error "recursion limit")
  | fuel + 1, now, st =>
    let current_index := st.active_token_index
    let refresh_path : TokenPoolState × Except String TokenData :=
      match refresh_token_fuel tokens exchange fuel (some current_index) st with
      | (st', .ok new_token) =>
        (cache_copilot_token st' new_token current_index, .ok new_token)
      | (st', .error _) =>
        match try_token_indices
            (fun i s => refresh_token_fuel tokens exchange fuel (some i) s)
            tokens
            (List.range' (st'.active_token_index + 1)
              (tokens.length - (st'.active_token_index + 1))) st' with
        | (st'', .ok _) =>
          get_cached_copilot_token_fuel tokens exchange fuel now st''
        | (st'', .error e) => (st'', .error e)
    match alookup st.cached_tokens current_index with
    | some cached =>
      if now + 300 < cached.expires_at then (st, .ok cached)
      else refresh_path
    | none => refresh_path

/-- The refresh credentials of the C9 scenario. -/
def c9Tokens : List String := ["cred0", "cred1"]

/-- The upstream of the C9 scenario: credential 0 is rejected, credential 1
exchanges successfully. -/
def c9Exchange : ℕ → Option TokenData :=
  fun i =>
    if i = 1 then some { token := "session-token-1", expires_at := 10000 }
    else none

/-- C9, failing input: two credentials, index 0 active and rejected
upstream, index 1 valid.  `refresh_token(0)` internally fails over to
credential 1 and returns credential 1's session token through the old call
frame; `get_cached_copilot_token` then caches that token under index 0 —
although exchanging credential 0 never succeeded — and clears index 0's
recorded error.  The cache is not genuinely per refresh-credential index. -/
theorem C9_cross_index_cache :
    c9Exchange 0 = none ∧
    (get_cached_copilot_token_fuel c9Tokens c9Exchange 10 0 {}).1.cached_tokens
      = [(0, { token := "session-token-1", expires_at := 10000 })] ∧
    (get_cached_copilot_token_fuel c9Tokens c9Exchange 10 0
      {}).1.token_errors = [] ∧
    (get_cached_copilot_token_fuel c9Tokens c9Exchange 10 0
      {}).1.active_token_index = 1 := by
  refine ⟨rfl, ?_, ?_, ?_⟩ <;> rfl


end CopilotMore
